import Mathlib

/-!
Verification of the document-translation pipeline of `src/utils.py`.

The Python source is shallow-embedded below:

* `pyStrip` models Python `str.strip()` (whitespace trimming on both ends).
* `_should_translate_text` models the text classifier (utils.py lines 250-288).
* `load_glossary` models glossary loading (lines 60-88); file system and JSON
  parsing outcomes are abstracted into the `GlossaryFile` type.
* `_get_deepl_lang_code`, `call_deepl_api`, `call_deepl_api_batch`,
  `translate_text` model the translation client (lines 291-502); the network
  call and the lazily constructed DeepL client are passed in as explicit
  parameters, and the `deepl` exception taxonomy is the `DeeplError` type,
  rendered to the exact message strings the code raises.
* `runTranslate` models `translate_word_document` (lines 583-846): candidate
  collection, the glossary fast path, chunking into batches of 50,
  out-of-order batch completion (the completion order is an explicit
  permutation parameter), the rate-limit retry path, ordered application of
  the result map, and the progress-callback trace.

Machine integers do not occur (Python integers are unbounded); strings are
`String` and string predicates mirror the regular expressions of the source
at the level of `Char` classes.
-/

namespace MonxTrans

/-- Python `str.strip()` on the underlying character list: drop whitespace
from the front, then from the back. -/
def stripChars (l : List Char) : List Char :=
  ((l.dropWhile Char.isWhitespace).reverse.dropWhile Char.isWhitespace).reverse

/-- Python `str.strip()` for `String`. -/
def pyStrip (s : String) : String :=
  ⟨stripChars s.data⟩

/-- Occurrence of `pat` as a contiguous segment of `l`
(Python substring containment). -/
def listIsInfix (pat : List Char) : List Char → Bool
  | [] => pat.isEmpty
  | c :: rest => pat.isPrefixOf (c :: rest) || listIsInfix pat rest

/-- Python `sub in s` substring test. -/
def strContains (s pat : String) : Bool :=
  listIsInfix pat.data s.data

/-- Character class of the numeric regex `[\d\s\.,\-+\%\$€¥]`
in `_should_translate_text` (utils.py line 268). -/
def numericChar (c : Char) : Bool :=
  c.isDigit || c.isWhitespace || c == '.' || c == ',' || c == '-' || c == '+' ||
    c == '%' || c == '$' || c == '€' || c == '¥'

/-- Character class of the punctuation regex `[\s\.,;:!?\-_()\[\]{}"\']`
in `_should_translate_text` (utils.py line 284). -/
def punctChar (c : Char) : Bool :=
  c.isWhitespace || c == '.' || c == ',' || c == ';' || c == ':' || c == '!' ||
    c == '?' || c == '-' || c == '_' || c == '(' || c == ')' || c == '[' ||
    c == ']' || c == Char.ofNat 123 || c == Char.ofNat 125 || c == '"' ||
    c == Char.ofNat 39

/-- Date separator class dash, slash, dot of the date regexes (utils.py lines 275-276). -/
def isDateSep (c : Char) : Bool :=
  c == '-' || c == '/' || c == '.'

/-- A digit run of length 1 or 2 (`\d{1,2}`). -/
def len12 (l : List Char) : Bool :=
  l.length == 1 || l.length == 2

/-- Matcher for `^\d{4}sep]\d{1,2}[sep]\d{1,2}$` with sep in dash, slash, dot (utils.py line 275). -/
def dateYMD (l : List Char) : Bool :=
  let p := l.span Char.isDigit
  p.1.length == 4 &&
    (match p.2 with
     | c :: r1 =>
       isDateSep c &&
         (let q := r1.span Char.isDigit
          len12 q.1 &&
            (match q.2 with
             | c2 :: r2 =>
               isDateSep c2 &&
                 (let w := r2.span Char.isDigit
                  len12 w.1 && w.2.isEmpty)
             | [] => false))
     | [] => false)

/-- Matcher for `^\d{1,2}sep]\d{1,2}[sep]\d{4}$` with sep in dash, slash, dot (utils.py line 276). -/
def dateMDY (l : List Char) : Bool :=
  let p := l.span Char.isDigit
  len12 p.1 &&
    (match p.2 with
     | c :: r1 =>
       isDateSep c &&
         (let q := r1.span Char.isDigit
          len12 q.1 &&
            (match q.2 with
             | c2 :: r2 =>
               isDateSep c2 &&
                 (let w := r2.span Char.isDigit
                  w.1.length == 4 && w.2.isEmpty)
             | [] => false))
     | [] => false)

/-- Matcher for `^\d{4}年\d{1,2}月\d{1,2}日$` (utils.py line 277). -/
def dateCJK (l : List Char) : Bool :=
  let p := l.span Char.isDigit
  p.1.length == 4 &&
    (match p.2 with
     | c :: r1 =>
       c == '年' &&
         (let q := r1.span Char.isDigit
          len12 q.1 &&
            (match q.2 with
             | c2 :: r2 =>
               c2 == '月' &&
                 (let w := r2.span Char.isDigit
                  len12 w.1 &&
                    (match w.2 with
                     | c3 :: r3 => c3 == '日' && r3.isEmpty
                     | [] => false))
             | [] => false))
     | [] => false)

/-- The three date patterns of `_should_translate_text`, tried on the
stripped character list. -/
def isDateText (t : List Char) : Bool :=
  dateYMD t || dateMDY t || dateCJK t

/-- `_should_translate_text` (utils.py lines 250-288): strip the text; skip
empty text, numeric-token text containing a digit, date-shaped text, and
punctuation-only text; translate everything else.  A pure function of its
argument by construction. -/
def _should_translate_text (text : String) : Bool :=
  let t := stripChars text.data
  if t.isEmpty then false
  else if t.all numericChar && t.any Char.isDigit then false
  else if isDateText t then false
  else if t.all punctChar then false
  else true

/-- The character-shape side of claim C4, phrased from the spec wording:
empty or whitespace-only strings; strings made only of numeric-class
characters that contain at least one digit; date-shaped strings (the date
shapes are read on the whitespace-trimmed text, since the classifier strips
its input before matching); strings composed only of punctuation-class and
whitespace characters. -/
def specNonTranslatable (s : String) : Bool :=
  s.data.all Char.isWhitespace
    || (s.data.all numericChar && s.data.any Char.isDigit)
    || isDateText (stripChars s.data)
    || s.data.all punctChar

theorem stripChars_eq_nil_iff (l : List Char) :
    stripChars l = [] ↔ ∀ x ∈ l, x.isWhitespace := by
  unfold stripChars
  rw [List.reverse_eq_nil_iff, List.dropWhile_eq_nil_iff]
  constructor
  · intro h x hx
    rcases (List.mem_append.1
        (by rw [List.takeWhile_append_dropWhile] ; exact hx :
          x ∈ l.takeWhile Char.isWhitespace ++ l.dropWhile Char.isWhitespace)) with h1 | h1
    · exact List.mem_takeWhile_imp h1
    · exact h x (List.mem_reverse.2 h1)
  · intro h x hx
    exact h x ((List.dropWhile_sublist _).mem (List.mem_reverse.1 hx))

/-- The stripped list sits inside the original list between two all-whitespace
flanks. -/
theorem stripChars_decomposition (l : List Char) :
    ∃ a b, l = a ++ stripChars l ++ b ∧
      (∀ x ∈ a, x.isWhitespace) ∧ (∀ x ∈ b, x.isWhitespace) := by
  refine ⟨l.takeWhile Char.isWhitespace,
    ((l.dropWhile Char.isWhitespace).reverse.takeWhile Char.isWhitespace).reverse,
    ?_, ?_, ?_⟩
  · conv_lhs => rw [← @List.takeWhile_append_dropWhile _ Char.isWhitespace l]
    rw [List.append_assoc]
    congr 1
    conv_lhs => rw [← List.reverse_reverse (l.dropWhile Char.isWhitespace),
      ← @List.takeWhile_append_dropWhile _ Char.isWhitespace
        (l.dropWhile Char.isWhitespace).reverse]
    rw [List.reverse_append]
    rfl
  · intro x hx; exact List.mem_takeWhile_imp hx
  · intro x hx; exact List.mem_takeWhile_imp (List.mem_reverse.1 hx)

theorem whitespace_not_digit (c : Char) (h : c.isWhitespace) :
    c.isDigit = false := by
  unfold Char.isWhitespace at h
  simp only [Bool.or_eq_true, decide_eq_true_eq] at h
  rcases h with ((h | h) | h) | h <;> subst h <;> decide

theorem all_stripChars (C : Char → Bool) (hw : ∀ c, c.isWhitespace → C c = true)
    (l : List Char) : (stripChars l).all C = l.all C := by
  obtain ⟨a, b, hl, ha, hb⟩ := stripChars_decomposition l
  have ha2 : a.all C = true := List.all_eq_true.2 (fun x hx => hw x (ha x hx))
  have hb2 : b.all C = true := List.all_eq_true.2 (fun x hx => hw x (hb x hx))
  conv_rhs => rw [hl]
  simp [List.all_append, ha2, hb2]

theorem any_digit_stripChars (l : List Char) :
    (stripChars l).any Char.isDigit = l.any Char.isDigit := by
  obtain ⟨a, b, hl, ha, hb⟩ := stripChars_decomposition l
  have ha2 : a.any Char.isDigit = false := by
    simp only [List.any_eq_false]
    intro x hx
    simp [whitespace_not_digit x (ha x hx)]
  have hb2 : b.any Char.isDigit = false := by
    simp only [List.any_eq_false]
    intro x hx
    simp [whitespace_not_digit x (hb x hx)]
  conv_rhs => rw [hl]
  simp [List.any_append, ha2, hb2]

theorem stripChars_isEmpty_eq (l : List Char) :
    (stripChars l).isEmpty = l.all Char.isWhitespace := by
  rcases h : (stripChars l).isEmpty with _ | _
  · rcases h2 : l.all Char.isWhitespace with _ | _
    · rfl
    · have := (stripChars_eq_nil_iff l).2 (List.all_eq_true.1 h2)
      rw [this] at h
      simp at h
  · have := (stripChars_eq_nil_iff l).1 (List.isEmpty_iff.1 h)
    exact (List.all_eq_true.2 this).symm

theorem whitespace_numericChar (c : Char) (h : c.isWhitespace) :
    numericChar c = true := by
  unfold numericChar
  simp [h]

theorem whitespace_punctChar (c : Char) (h : c.isWhitespace) :
    punctChar c = true := by
  unfold punctChar
  simp [h]

/-- C4: `_should_translate_text` returns false exactly for: empty or
whitespace-only strings; strings made only of digits, whitespace, and the
characters dot, comma, dash, plus, percent, dollar, euro, yen that contain
at least one digit; strings matching the date shapes YYYY-MM-DD or
MM-DD-YYYY with dash, slash or dot separators, or the localized
YYYY年MM月DD日 form (matched against the whitespace-trimmed text, since the
classifier strips its input first); and strings composed only of
punctuation-class characters (the set dot, comma, semicolon, colon, bang,
question mark, dash, underscore, round, square and curly brackets, double
and single quote of the source regex) and whitespace.  For every other
string it returns true.  Purity is by construction: the model is a function
of the argument alone, exactly like the Python function, which reads no
global state. -/
theorem shouldTranslate_characterization (s : String) :
    _should_translate_text s = !specNonTranslatable s := by
  unfold _should_translate_text specNonTranslatable
  dsimp only
  rw [stripChars_isEmpty_eq, all_stripChars numericChar whitespace_numericChar,
    any_digit_stripChars, all_stripChars punctChar whitespace_punctChar]
  rcases s.data.all Char.isWhitespace with _ | _ <;>
    rcases h2 : s.data.all numericChar with _ | _ <;>
      rcases h3 : s.data.any Char.isDigit with _ | _ <;>
        rcases h4 : isDateText (stripChars s.data) with _ | _ <;>
          rcases h5 : s.data.all punctChar with _ | _ <;> simp

/-- A parsed JSON value, as returned by `json.load` in `load_glossary`.  The
glossary's intended shape is a flat object of string-to-string entries, so
the object constructor carries exactly that; non-object shapes carry only
what the `isinstance(glossary, dict)` test can observe. -/
inductive PyJson where
  | jNull
  | jBool (b : Bool)
  | jNum (n : Int)
  | jStr (s : String)
  | jArr (len : Nat)
  | jObj (entries : List (String × String))

/-- Outcome of reading and parsing `glossary.json`: the file can be absent,
unreadable (any exception while opening or reading it), syntactically
invalid JSON (`json.JSONDecodeError`), or parsed into a JSON value. -/
inductive GlossaryFile where
  | missing
  | unreadable (msg : String)
  | invalidJson (msg : String)
  | parsed (value : PyJson)

/-- `load_glossary` (utils.py lines 60-88).  Every failure branch of the
Python function returns the empty dict after printing a warning; no branch
raises, which the model reflects by being a total function into the map
type. -/
def load_glossary : GlossaryFile → List (String × String)
  | .missing => []
  | .unreadable _ => []
  | .invalidJson _ => []
  | .parsed v =>
    match v with
    | .jObj entries => entries
    | _ => []

/-- C8: each failure mode of glossary loading (missing file, unreadable
file, malformed JSON, JSON that parses to a non-object) yields the empty
mapping, and a well-formed JSON object loads as the term map.  The model of
`load_glossary` is a total function, which reflects that the Python
function catches `json.JSONDecodeError` and every other exception and never
propagates one. -/
theorem load_glossary_degrades_to_empty :
    load_glossary .missing = [] ∧
    (∀ m, load_glossary (.unreadable m) = []) ∧
    (∀ m, load_glossary (.invalidJson m) = []) ∧
    load_glossary (.parsed .jNull) = [] ∧
    (∀ b, load_glossary (.parsed (.jBool b)) = []) ∧
    (∀ n, load_glossary (.parsed (.jNum n)) = []) ∧
    (∀ s, load_glossary (.parsed (.jStr s)) = []) ∧
    (∀ n, load_glossary (.parsed (.jArr n)) = []) ∧
    (∀ entries, load_glossary (.parsed (.jObj entries)) = entries) := by
  refine ⟨rfl, fun _ => rfl, fun _ => rfl, rfl, fun _ => rfl, fun _ => rfl,
    fun _ => rfl, fun _ => rfl, fun _ => rfl⟩

/-- The in-memory glossary (`GLOSSARY`), a dict from source strings to
target strings, modelled as an association list with distinct keys. -/
abbrev Glossary := List (String × String)

/-- Python `GLOSSARY[t]` / `t in GLOSSARY` lookup: exact string equality on
the key, first match. -/
def glossaryFind : Glossary → String → Option String
  | [], _ => none
  | (k, v) :: rest, t => if k = t then some v else glossaryFind rest t

/-- `target_lang.upper().startswith("EN")` at the character level. -/
def startsWithEN (code : String) : Bool :=
  (code.data.map Char.toUpper).take 2 == ['E', 'N']

/-- `_get_deepl_lang_code` (utils.py lines 318-354): the fixed table from
human-readable language names to DeepL codes, defaulting to "EN-US". -/
def _get_deepl_lang_code (language_name : String) : String :=
  if language_name = "中文" then "ZH"
  else if language_name = "简体中文" then "ZH"
  else if language_name = "英语" then "EN-US"
  else if language_name = "英文" then "EN-US"
  else if language_name = "日语" then "JA"
  else if language_name = "法语" then "FR"
  else if language_name = "德语" then "DE"
  else if language_name = "西班牙语" then "ES"
  else if language_name = "俄语" then "RU"
  else if language_name = "韩语" then "KO"
  else if language_name = "意大利语" then "IT"
  else if language_name = "葡萄牙语" then "PT"
  else if language_name = "阿拉伯语" then "AR"
  else if language_name = "泰语" then "TH"
  else if language_name = "越南语" then "VI"
  else if language_name = "印尼语" then "ID"
  else if language_name = "荷兰语" then "NL"
  else if language_name = "瑞典语" then "SV"
  else if language_name = "挪威语" then "NO"
  else if language_name = "丹麦语" then "DA"
  else if language_name = "芬兰语" then "FI"
  else if language_name = "波兰语" then "PL"
  else if language_name = "土耳其语" then "TR"
  else "EN-US"

/-- The `deepl` library exception taxonomy caught by the translation client
(utils.py lines 399-411 and 491-502). -/
inductive DeeplError where
  | quotaExceeded
  | authorization
  | tooManyRequests
  | connection (msg : String)
  | deepl (msg : String)
  | unknown (msg : String)

/-- The exact message strings with which the client re-raises each caught
provider exception as a generic `Exception`. -/
def renderDeeplError : DeeplError → String
  | .quotaExceeded => "DeepL API 额度已用完。请检查您的账户余额或升级套餐。"
  | .authorization => "DeepL API 认证失败。请检查 API Key 是否正确。"
  | .tooManyRequests => "DeepL API 请求过于频繁。请稍后再试。"
  | .connection m => "DeepL API 连接失败：" ++ m ++ "。请检查网络连接。"
  | .deepl m => "DeepL API 调用失败：" ++ m
  | .unknown m => "调用 DeepL API 时发生未知错误：" ++ m

/-- The rate-limit detection of `translate_word_document` (utils.py line
764): `"429" in msg or "rate limit" in msg.lower() or "TooManyRequests" in
msg`, on the stringified batch error. -/
def isRateLimitMsg (msg : String) : Bool :=
  listIsInfix "429".data msg.data
    || listIsInfix "rate limit".data (msg.data.map Char.toLower)
    || listIsInfix "TooManyRequests".data msg.data

/-- The error message of `_get_deepl_translator` when no API key is
configured. -/
def noApiKeyMsg : String :=
  "未找到 DeepL API Key。请配置环境变量 DEEPL_API_KEY 或 在 Streamlit secrets 中设置 DEEPL_API_KEY"

/-- Python truthiness of an optional string: `None` and the empty string
are falsy. -/
def pyTruthy : Option String → Option String
  | some v => if v.isEmpty then none else some v
  | none => none

/-- `_get_deepl_translator` (utils.py lines 20-56): resolve the API key
from Streamlit secrets, then the environment; with no key anywhere, raise a
`ValueError`.  Constructing the `deepl.Translator` object itself (including
the free-tier URL choice for keys ending in ":fx") always succeeds and is
modelled as `.ok ()`; the process-lifetime memoization is a concurrency
detail outside the model. -/
def _get_deepl_translator (secretsKey envKey : Option String) : Except String Unit :=
  match pyTruthy secretsKey with
  | some _ => .ok ()
  | none =>
    match pyTruthy envKey with
    | some _ => .ok ()
    | none => .error noApiKeyMsg

/-- The provider-call part of `call_deepl_api` (utils.py lines 386-411):
construct the client, call it, and map each `deepl` exception to the
re-raised message.  `ValueError` from the client constructor is re-raised
unchanged. -/
def deeplApiPath (getTranslator : Except String Unit)
    (provider : String → String → Except DeeplError String)
    (text target_lang : String) : Except String String :=
  match getTranslator with
  | .error e => .error e
  | .ok _ =>
    match provider text target_lang with
    | .ok r => .ok r
    | .error e => .error (renderDeeplError e)

/-- `call_deepl_api` (utils.py lines 357-411): glossary fast path for
English targets, then the provider call. -/
def call_deepl_api (g : Glossary) (getTranslator : Except String Unit)
    (provider : String → String → Except DeeplError String)
    (text target_lang : String) : Except String String :=
  match (if startsWithEN target_lang then glossaryFind g (pyStrip text) else none) with
  | some v => .ok v
  | none => deeplApiPath getTranslator provider text target_lang

/-- `translate_text` (utils.py lines 291-315): resolve the language code,
consult the glossary only for English targets, else call the API (which
itself re-checks the glossary before calling out). -/
def translate_text (g : Glossary) (getTranslator : Except String Unit)
    (provider : String → String → Except DeeplError String)
    (text target_language : String) : Except String String :=
  let code := _get_deepl_lang_code target_language
  match (if startsWithEN code then glossaryFind g (pyStrip text) else none) with
  | some v => .ok v
  | none => call_deepl_api g getTranslator provider text code

/-- The per-text glossary consultation of `call_deepl_api_batch`: only for
English target codes, keyed by the stripped text. -/
def glossHit (isEng : Bool) (g : Glossary) (t : String) : Option String :=
  if isEng then glossaryFind g (pyStrip t) else none

/-- The result-reassembly loop of `call_deepl_api_batch` (utils.py lines
473-487): walk the original texts; glossary hits keep their stored value,
misses consume the next API translation, and once the API list is
exhausted the original text is kept. -/
def rebuildBatch (isEng : Bool) (g : Glossary) :
    List String → List String → List String
  | [], _ => []
  | t :: rest, api =>
    match glossHit isEng g t with
    | some v => v :: rebuildBatch isEng g rest api
    | none =>
      match api with
      | a :: api2 => a :: rebuildBatch isEng g rest api2
      | [] => t :: rebuildBatch isEng g rest []

/-- `call_deepl_api_batch` (utils.py lines 414-502).  The provider may
return any number of translations for the texts sent (the Python code
wraps a single bare result into a list; the model's provider returns the
list directly). -/
def call_deepl_api_batch (g : Glossary) (getTranslator : Except String Unit)
    (provider : List String → Except DeeplError (List String))
    (texts : List String) (target_lang : String) : Except String (List String) :=
  if texts.isEmpty then .ok []
  else
    let isEng := startsWithEN target_lang
    let apiTexts := texts.filter (fun t => (glossHit isEng g t).isNone)
    if apiTexts.isEmpty then
      .ok (texts.map (fun t => (glossHit isEng g t).getD t))
    else
      match getTranslator with
      | .error e => .error e
      | .ok _ =>
        match provider apiTexts with
        | .ok apiTranslations => .ok (rebuildBatch isEng g texts apiTranslations)
        | .error e => .error (renderDeeplError e)

/-- Number of glossary misses among the first `i` texts: the position in
the provider's result list that text `i` consumes if it is itself a miss. -/
def batchMissRank (isEng : Bool) (g : Glossary) (texts : List String) (i : Nat) : Nat :=
  ((texts.take i).filter (fun t => (glossHit isEng g t).isNone)).length

/-- The positional specification of the reassembled batch result: glossary
hits keep their stored value in place; the `j`-th miss takes the `j`-th API
translation when the provider returned at least `j + 1` results, and keeps
its original source text otherwise. -/
def batchSpecOut (isEng : Bool) (g : Glossary) (texts api : List String) : List String :=
  (List.range texts.length).map (fun i =>
    match glossHit isEng g (texts.getD i "") with
    | some v => v
    | none =>
      if batchMissRank isEng g texts i < api.length then
        api.getD (batchMissRank isEng g texts i) ""
      else texts.getD i "")

theorem batchMissRank_succ_cons (isEng : Bool) (g : Glossary) (t : String)
    (rest : List String) (i : Nat) :
    batchMissRank isEng g (t :: rest) (i + 1) =
      (if (glossHit isEng g t).isNone then 1 else 0) + batchMissRank isEng g rest i := by
  unfold batchMissRank
  rw [List.take_succ_cons, List.filter_cons]
  by_cases h : (glossHit isEng g t).isNone = true <;> simp [h, Nat.add_comm]

theorem getD_drop_one (api : List String) (r : Nat) :
    api.getD (1 + r) "" = (api.drop 1).getD r "" := by
  cases api with
  | nil => simp
  | cons a rest => rw [Nat.add_comm]; simp

theorem batchSpecOut_cons (isEng : Bool) (g : Glossary) (t : String)
    (rest api : List String) :
    batchSpecOut isEng g (t :: rest) api =
      (match glossHit isEng g t with
       | some v => v
       | none =>
         match api with
         | a :: _ => a
         | [] => t) ::
        batchSpecOut isEng g rest
          (if (glossHit isEng g t).isNone then api.drop 1 else api) := by
  unfold batchSpecOut
  rw [show (t :: rest).length = rest.length + 1 from rfl,
    List.range_succ_eq_map, List.map_cons, List.map_map]
  congr 1
  · show (match glossHit isEng g ((t :: rest).getD 0 "") with
      | some v => v
      | none =>
        if batchMissRank isEng g (t :: rest) 0 < api.length then
          api.getD (batchMissRank isEng g (t :: rest) 0) ""
        else (t :: rest).getD 0 "") = _
    have h0 : batchMissRank isEng g (t :: rest) 0 = 0 := rfl
    rw [h0]
    cases hgl : glossHit isEng g t with
    | some v => simp [hgl]
    | none => cases api <;> simp [hgl]
  · apply List.map_congr_left
    intro i _
    show (match glossHit isEng g ((t :: rest).getD (i + 1) "") with
      | some v => v
      | none =>
        if batchMissRank isEng g (t :: rest) (i + 1) < api.length then
          api.getD (batchMissRank isEng g (t :: rest) (i + 1)) ""
        else (t :: rest).getD (i + 1) "") = _
    rw [List.getD_cons_succ, batchMissRank_succ_cons]
    cases hgl : glossHit isEng g t with
    | some v =>
      simp only [hgl, Option.isNone_some, Bool.false_eq_true, if_false,
        Nat.zero_add]
    | none =>
      simp only [hgl, Option.isNone_none, if_true]
      cases hg2 : glossHit isEng g (rest.getD i "") with
      | some w => simp
      | none =>
        simp only []
        have hiff : 1 + batchMissRank isEng g rest i < api.length ↔
            batchMissRank isEng g rest i < (api.drop 1).length := by
          rw [List.length_drop]
          omega
        by_cases h : 1 + batchMissRank isEng g rest i < api.length
        · rw [if_pos h, if_pos (hiff.1 h), getD_drop_one]
        · rw [if_neg h, if_neg (fun hc => h (hiff.2 hc))]

theorem rebuildBatch_eq_spec (isEng : Bool) (g : Glossary) :
    ∀ texts api, rebuildBatch isEng g texts api = batchSpecOut isEng g texts api := by
  intro texts
  induction texts with
  | nil => intro api; rfl
  | cons t rest ih =>
    intro api
    rw [batchSpecOut_cons]
    show (match glossHit isEng g t with
      | some v => v :: rebuildBatch isEng g rest api
      | none =>
        match api with
        | a :: api2 => a :: rebuildBatch isEng g rest api2
        | [] => t :: rebuildBatch isEng g rest []) = _
    cases hgl : glossHit isEng g t with
    | some v => simp [hgl, ih]
    | none => cases api <;> simp [hgl, ih]

theorem rebuildBatch_all_hits (isEng : Bool) (g : Glossary) :
    ∀ (texts : List String) (api : List String),
      texts.filter (fun t => (glossHit isEng g t).isNone) = [] →
      texts.map (fun t => (glossHit isEng g t).getD t) = rebuildBatch isEng g texts api := by
  intro texts
  induction texts with
  | nil => intro api _; rfl
  | cons t rest ih =>
    intro api hf
    rw [List.filter_cons] at hf
    rcases hv : glossHit isEng g t with _ | v
    · rw [hv] at hf
      simp at hf
    · rw [hv] at hf
      simp only [Option.isNone_some, Bool.false_eq_true, if_false] at hf
      show (glossHit isEng g t).getD t :: rest.map (fun u => (glossHit isEng g u).getD u) =
        rebuildBatch isEng g (t :: rest) api
      have hr : rebuildBatch isEng g (t :: rest) api =
          v :: rebuildBatch isEng g rest api := by
        show (match glossHit isEng g t with
          | some w => w :: rebuildBatch isEng g rest api
          | none =>
            match api with
            | a :: api2 => a :: rebuildBatch isEng g rest api2
            | [] => t :: rebuildBatch isEng g rest []) = _
        rw [hv]
      rw [hr, hv]
      simp only [Option.getD_some]
      congr 1
      exact ih api hf

theorem batchSpecOut_length (isEng : Bool) (g : Glossary) (texts api : List String) :
    (batchSpecOut isEng g texts api).length = texts.length := by
  unfold batchSpecOut
  simp

theorem batchSpecOut_getD (isEng : Bool) (g : Glossary) (texts api : List String)
    (i : Nat) (h : i < texts.length) :
    (batchSpecOut isEng g texts api).getD i "" =
      match glossHit isEng g (texts.getD i "") with
      | some v => v
      | none =>
        if batchMissRank isEng g texts i < api.length then
          api.getD (batchMissRank isEng g texts i) ""
        else texts.getD i "" := by
  unfold batchSpecOut
  rw [List.getD_eq_getElem?_getD, List.getElem?_map, List.getElem?_range h]
  rfl

/-- C5: on a successful provider call, `call_deepl_api_batch` returns a
list whose length equals the input length; every glossary-resolved text
sits at its original position; a glossary miss whose rank exceeds the
number of translations the provider returned keeps its original source
text (fail-open: no slot is dropped), while earlier misses take the
provider's translations in order.  `api` is exactly what the provider
returned for the glossary-miss sublist. -/
theorem call_deepl_api_batch_fail_open (g : Glossary)
    (provider : List String → Except DeeplError (List String))
    (texts api : List String) (target_lang : String)
    (hp : provider (texts.filter
        (fun t => (glossHit (startsWithEN target_lang) g t).isNone)) = .ok api) :
    call_deepl_api_batch g (.ok ()) provider texts target_lang =
      .ok (batchSpecOut (startsWithEN target_lang) g texts api) ∧
    (batchSpecOut (startsWithEN target_lang) g texts api).length = texts.length ∧
    (∀ i v, i < texts.length →
      glossHit (startsWithEN target_lang) g (texts.getD i "") = some v →
      (batchSpecOut (startsWithEN target_lang) g texts api).getD i "" = v) ∧
    (∀ i, i < texts.length →
      glossHit (startsWithEN target_lang) g (texts.getD i "") = none →
      api.length ≤ batchMissRank (startsWithEN target_lang) g texts i →
      (batchSpecOut (startsWithEN target_lang) g texts api).getD i "" =
        texts.getD i "") ∧
    (∀ i, i < texts.length →
      glossHit (startsWithEN target_lang) g (texts.getD i "") = none →
      batchMissRank (startsWithEN target_lang) g texts i < api.length →
      (batchSpecOut (startsWithEN target_lang) g texts api).getD i "" =
        api.getD (batchMissRank (startsWithEN target_lang) g texts i) "") := by
  refine ⟨?_, batchSpecOut_length _ _ _ _, ?_, ?_, ?_⟩
  · unfold call_deepl_api_batch
    by_cases hnil : texts.isEmpty = true
    · rw [if_pos hnil]
      rw [List.isEmpty_iff.1 hnil]
      rfl
    · rw [if_neg hnil]
      simp only []
      by_cases hapi : (texts.filter
          (fun t => (glossHit (startsWithEN target_lang) g t).isNone)).isEmpty = true
      · rw [if_pos hapi]
        rw [rebuildBatch_all_hits (startsWithEN target_lang) g texts api
            (List.isEmpty_iff.1 hapi),
          rebuildBatch_eq_spec]
      · rw [if_neg hapi, hp]
        show Except.ok (rebuildBatch (startsWithEN target_lang) g texts api) = _
        rw [rebuildBatch_eq_spec]
  · intro i v hi hv
    rw [batchSpecOut_getD _ _ _ _ _ hi, hv]
  · intro i hi hv hge
    rw [batchSpecOut_getD _ _ _ _ _ hi, hv]
    simp only []
    rw [if_neg (Nat.not_lt.2 hge)]
  · intro i hi hv hlt
    rw [batchSpecOut_getD _ _ _ _ _ hi, hv]
    simp only []
    rw [if_pos hlt]

/-- Witness for C5 at a concrete batch: four texts, one glossary hit, and a
provider that returns only two translations for the three misses — the
third miss keeps its source text and the hit keeps its stored value. -/
theorem call_deepl_api_batch_fail_open_witness :
    call_deepl_api_batch [("你好", "hello")] (.ok ())
        (fun _ => .ok ["A", "B"]) ["你好", "甲", "乙", "丙"] "EN-US" =
      .ok ["hello", "A", "B", "丙"] := by
  have h := call_deepl_api_batch_fail_open [("你好", "hello")]
    (fun _ => .ok ["A", "B"]) ["你好", "甲", "乙", "丙"] ["A", "B"] "EN-US" rfl
  rw [h.1]
  exact congrArg Except.ok (by decide)

theorem glossaryFind_mem :
    ∀ (g : Glossary) (t v : String), glossaryFind g t = some v → (t, v) ∈ g := by
  intro g
  induction g with
  | nil => intro t v h; exact absurd h (by simp [glossaryFind])
  | cons kv rest ih =>
    intro t v h
    rcases kv with ⟨k, w⟩
    unfold glossaryFind at h
    by_cases hk : k = t
    · rw [if_pos hk] at h
      rcases h with ⟨⟩
      subst hk
      exact List.mem_cons_self _ _
    · rw [if_neg hk] at h
      exact List.mem_cons_of_mem _ (ih t v h)

theorem glossaryFind_eq_none_of_no_exact_key :
    ∀ (g : Glossary) (t : String), (∀ kv ∈ g, kv.1 ≠ t) → glossaryFind g t = none := by
  intro g
  induction g with
  | nil => intro t _; rfl
  | cons kv rest ih =>
    intro t h
    rcases kv with ⟨k, w⟩
    unfold glossaryFind
    rw [if_neg (h (k, w) (List.mem_cons_self _ _))]
    exact ih t (fun p hp => h p (List.mem_cons_of_mem _ hp))

/-- C6: the glossary is consulted by `translate_text` only when the
resolved language code starts (case-insensitively) with "EN"; for any other
resolved code the result is exactly the provider path, whatever the
glossary contains; for English codes a hit on the trimmed text returns the
stored value and a miss falls through to the provider path; a hit requires
an exact-equality key (the trimmed input itself is a key of the map, and
when no key equals it exactly — case-insensitive or fuzzy near-matches
included — the lookup misses). -/
theorem glossary_only_consulted_for_english (g : Glossary)
    (getTranslator : Except String Unit)
    (provider : String → String → Except DeeplError String)
    (text target_language : String) :
    (startsWithEN (_get_deepl_lang_code target_language) = false →
      translate_text g getTranslator provider text target_language =
        deeplApiPath getTranslator provider text
          (_get_deepl_lang_code target_language)) ∧
    (∀ v, startsWithEN (_get_deepl_lang_code target_language) = true →
      glossaryFind g (pyStrip text) = some v →
      translate_text g getTranslator provider text target_language = .ok v) ∧
    (startsWithEN (_get_deepl_lang_code target_language) = true →
      glossaryFind g (pyStrip text) = none →
      translate_text g getTranslator provider text target_language =
        deeplApiPath getTranslator provider text
          (_get_deepl_lang_code target_language)) ∧
    (∀ v, glossaryFind g (pyStrip text) = some v → (pyStrip text, v) ∈ g) ∧
    ((∀ kv ∈ g, kv.1 ≠ pyStrip text) → glossaryFind g (pyStrip text) = none) := by
  refine ⟨?_, ?_, ?_, fun v h => glossaryFind_mem g _ v h,
    fun h => glossaryFind_eq_none_of_no_exact_key g _ h⟩
  · intro hEN
    unfold translate_text call_deepl_api
    dsimp only
    simp [hEN]
  · intro v hEN hv
    unfold translate_text
    dsimp only
    simp [hEN, hv]
  · intro hEN hv
    unfold translate_text call_deepl_api
    dsimp only
    simp [hEN, hv]

/-- Witness for C6: with target "中文" (code "ZH") the provider path is
taken even though the glossary holds the exact text, and with target "英语"
(code "EN-US") the same text resolves from the glossary. -/
theorem glossary_only_consulted_for_english_witness :
    translate_text [("你好", "hello")] (.ok ()) (fun _ _ => .ok "X") "你好" "中文" =
      deeplApiPath (.ok ()) (fun _ _ => .ok "X") "你好" (_get_deepl_lang_code "中文") ∧
    translate_text [("你好", "hello")] (.ok ()) (fun _ _ => .ok "X") "你好" "英语" =
      .ok "hello" := by
  constructor
  · exact (glossary_only_consulted_for_english [("你好", "hello")] (.ok ())
      (fun _ _ => .ok "X") "你好" "中文").1 (by decide)
  · exact ((glossary_only_consulted_for_english [("你好", "hello")] (.ok ())
      (fun _ _ => .ok "X") "你好" "英语").2.1) "hello" (by decide) (by decide)

/-- C10: for an English-resolving target, a glossary hit on the trimmed
text makes `translate_text` return the stored value for every state of the
lazily-constructed provider client — in particular with no DeepL API key in
Streamlit secrets or the environment — so the credential lookup is never
reached; and whenever the run with no credentials surfaces an error, the
glossary lookup must have missed. -/
theorem glossary_hit_skips_credentials (g : Glossary)
    (provider : String → String → Except DeeplError String)
    (text target_language : String)
    (hEN : startsWithEN (_get_deepl_lang_code target_language) = true) :
    (∀ v, glossaryFind g (pyStrip text) = some v →
      ∀ getTranslator, translate_text g getTranslator provider text target_language = .ok v) ∧
    (∀ e, translate_text g (_get_deepl_translator none none) provider text target_language =
        .error e →
      glossaryFind g (pyStrip text) = none) := by
  constructor
  · intro v hv getTranslator
    unfold translate_text
    dsimp only
    simp [hEN, hv]
  · intro e he
    rcases hv : glossaryFind g (pyStrip text) with _ | v
    · rfl
    · unfold translate_text at he
      dsimp only at he
      simp [hEN, hv] at he

/-- Witness for C10: the glossary hit succeeds with no API key configured
anywhere. -/
theorem glossary_hit_skips_credentials_witness :
    translate_text [("术语", "term")] (_get_deepl_translator none none)
      (fun _ _ => .error (.connection "down")) "术语" "英语" = .ok "term" :=
  (glossary_hit_skips_credentials [("术语", "term")]
    (fun _ _ => .error (.connection "down")) "术语" "英语" (by decide)).1
    "term" (by decide) (_get_deepl_translator none none)

/-- A collected translation task of `translate_word_document`: the global
task index (`len(translation_tasks)` at append time), the stripped
paragraph text, and a back-reference to the owning paragraph, modelled as
the paragraph's position in the document's traversal order. -/
structure BTask where
  idx : Nat
  text : String
  ref : Nat
deriving DecidableEq

instance : Inhabited BTask := ⟨⟨0, "", 0⟩⟩

/-- The candidate gate of the collection loops (utils.py lines 666-682):
strip the paragraph text; keep it only when it is non-empty, at most 8000
characters long, and the classifier wants it translated.  The length test
runs before the classifier, so over-long paragraphs are never classified. -/
def candText (p : String) : Option String :=
  let t := pyStrip p
  if t.data.isEmpty then none
  else if t.length ≤ 8000 then
    if _should_translate_text t then some t else none
  else none

/-- Walk the paragraphs in traversal order, assigning consecutive task
indices to the candidates; `ref` is the paragraph position, `idx` the
running candidate count. -/
def collectTasksAux : List String → Nat → Nat → List BTask
  | [], _, _ => []
  | p :: rest, ref, idx =>
    match candText p with
    | some t => ⟨idx, t, ref⟩ :: collectTasksAux rest (ref + 1) (idx + 1)
    | none => collectTasksAux rest (ref + 1) idx

/-- The `translation_tasks` list (utils.py lines 663-682).  The input list
is the document's paragraphs in traversal order: body paragraphs first,
then table paragraphs by table, row, cell, paragraph. -/
def collectTasks (ps : List String) : List BTask :=
  collectTasksAux ps 0 0

/-- `is_target_english` of `translate_word_document` (utils.py line 607):
a substring test on the human-readable language name. -/
def docIsEng (target_language : String) : Bool :=
  strContains target_language "英" || strContains target_language "English"

/-- The glossary applications of the fast path (utils.py lines 698-705):
for each task whose stripped text hits the glossary (English targets only),
the pair of its paragraph reference and the stored translation. -/
def docGlossApps (g : Glossary) (lang : String) (ps : List String) :
    List (Nat × String) :=
  (collectTasks ps).filterMap
    (fun tk => (glossHit (docIsEng lang) g tk.text).map (fun v => (tk.ref, v)))

/-- The `api_tasks` list (utils.py lines 695-708): tasks that missed the
glossary. -/
def docApiTasks (g : Glossary) (lang : String) (ps : List String) : List BTask :=
  (collectTasks ps).filter (fun tk => (glossHit (docIsEng lang) g tk.text).isNone)

/-- Fixed-size chunking with an explicit structural fuel (the list length
bounds the number of chunks, since the batch size is positive). -/
def chunksOfFuel (n : Nat) : Nat → List α → List (List α)
  | _, [] => []
  | fuel + 1, x :: xs => ((x :: xs).take n) :: chunksOfFuel n fuel ((x :: xs).drop n)
  | 0, _ :: _ => []

/-- Fixed-size chunking, `api_tasks[i:i+50]` for `i in range(0, len, 50)`. -/
def chunksOf (n : Nat) (l : List α) : List (List α) :=
  chunksOfFuel n l.length l

/-- The `task_batches` of a run (utils.py lines 716-720), with the source's
batch size of 50. -/
def docBatches (g : Glossary) (lang : String) (ps : List String) :
    List (List BTask) :=
  chunksOf 50 (docApiTasks g lang ps)

/-- The message of the length-mismatch failure result (utils.py line 756). -/
def mismatchMsg : String := "批处理结果数量不匹配"

/-- Folding a successful batch (utils.py lines 749-756): result `i` of the
batch call maps to the `i`-th task's global index; tasks beyond the length
of the returned list are marked failed with the mismatch error. -/
def successResults : List BTask → List String → List (Nat × Except String String)
  | [], _ => []
  | tk :: rest, ts =>
    match ts with
    | s :: ts2 => (tk.idx, .ok s) :: successResults rest ts2
    | [] => (tk.idx, .error mismatchMsg) :: successResults rest []

/-- Folding a successful retry over a failed batch (utils.py lines
768-773): retry result `i` overwrites the `i`-th task's failure; tasks
beyond the retry list keep the original error. -/
def retryOverwrite (e : String) :
    List BTask → List String → List (Nat × Except String String)
  | [], _ => []
  | tk :: rest, ts =>
    match ts with
    | s :: ts2 => (tk.idx, .ok s) :: retryOverwrite e rest ts2
    | [] => (tk.idx, .error e) :: retryOverwrite e rest []

/-- The result-map contribution of one completed batch (utils.py lines
742-779).  `att 0` is the outcome of the batch's pool call to
`_translate_batch_task`, `att 1` the outcome of its synchronous in-place
retry; errors carry the stringified exception message.  The retry is
consulted only when the first error's message passes the rate-limit string
test; a failed retry (or an exception during it) leaves the original
failure results standing. -/
def batchResults (tasks : List BTask) (att : Nat → Except String (List String)) :
    List (Nat × Except String String) :=
  match att 0 with
  | .ok ts => successResults tasks ts
  | .error e =>
    if isRateLimitMsg e then
      match att 1 with
      | .ok rts => retryOverwrite e tasks rts
      | .error _ => tasks.map (fun tk => (tk.idx, Except.error e))
    else tasks.map (fun tk => (tk.idx, Except.error e))

/-- First-match association lookup, modelling dict access keyed by the
global task index (keys are written at most once per run, so first match
equals the dict's value). -/
def assocFind {α : Type} : List (Nat × α) → Nat → Option α
  | [], _ => none
  | (k, v) :: rest, k2 => if k = k2 then some v else assocFind rest k2

/-- The application test of the final loop (utils.py line 814): a result
is applied when it is present, carries no error, and its text is truthy
(non-empty). -/
def appliedText : Option (Except String String) → Option String
  | some (.ok s) => if s.data.isEmpty then none else some s
  | _ => none

/-- The ordered application loop (utils.py lines 810-823): walk `api_tasks`
in original candidate order; applied tasks contribute a rewrite of their
paragraph and count as processed, all others count as failed. -/
def applyPhase (m : Nat → Option (Except String String)) :
    List BTask → List (Nat × String) × Nat × Nat
  | [] => ([], 0, 0)
  | tk :: rest =>
    let r := applyPhase m rest
    match appliedText (m tk.idx) with
    | some s => ((tk.ref, s) :: r.1, r.2.1 + 1, r.2.2)
    | none => (r.1, r.2.1, r.2.2 + 1)

/-- Rewrite the document: each paragraph position takes its rewritten text
when some task applied one, and keeps its original text otherwise. -/
def writeDoc (ps : List String) (apps : List (Nat × String)) : List String :=
  (List.range ps.length).map (fun i => (assocFind apps i).getD (ps.getD i ""))

/-- Entries of the accumulated result map that carry no error, as counted
for the progress message (utils.py line 785).  The accumulated list has
pairwise-distinct keys, so the list count equals the dict count. -/
def countOkResults (l : List (Nat × Except String String)) : Nat :=
  l.countP (fun e => match e.2 with | .ok _ => true | .error _ => false)

/-- Progress messages of the run, with the exact strings of the source. -/
def loadingMsg : String := "正在加载文档..."

def analyzingMsg : String := "正在分析文档结构..."

def beginMsg (total : Nat) : String :=
  "开始翻译，共 " ++ (toString total ++ " 个段落...")

def concurrentMsg (nApi B : Nat) : String :=
  "正在并发翻译 " ++ (toString nApi ++ " 个段落（分为 " ++ toString B ++
    " 批，使用 " ++ toString (min 5 B) ++ " 个线程）...")

def progressMsg (cur total k B : Nat) : String :=
  "翻译进度：" ++ (toString cur ++ "/" ++ toString total ++ " (" ++ toString k ++
    "/" ++ toString B ++ " 批已完成)")

def applyingMsg : String := "正在应用翻译结果..."

def savingMsg : String := "正在保存翻译后的文档..."

/-- The terminal summary message (utils.py lines 835-839). -/
def doneMsg (processed failed : Nat) : String :=
  "翻译完成！" ++
    (if 0 < failed then
      "成功：" ++ toString processed ++ " 个，跳过/失败：" ++ toString failed ++ " 个"
    else "共翻译 " ++ toString processed ++ " 个段落")

/-- The contribution of batch `b` to the result map. -/
def perBatchResults (batches : List (List BTask))
    (atts : Nat → Nat → Except String (List String)) (b : Nat) :
    List (Nat × Except String String) :=
  batchResults (batches.getD b []) (atts b)

/-- The per-batch progress reports, one per completed batch in completion
order (utils.py lines 781-790): each report carries the glossary count plus
the number of error-free entries of the result map accumulated so far. -/
def batchTrace (p0 total B : Nat)
    (perB : Nat → List (Nat × Except String String)) :
    List Nat → List (Nat × Except String String) → Nat → List (Nat × Nat × String)
  | [], _, _ => []
  | b :: rest, acc, k =>
    let acc2 := acc ++ perB b
    let cur := p0 + countOkResults acc2
    (cur, total, progressMsg cur total (k + 1) B) ::
      batchTrace p0 total B perB rest acc2 (k + 1)

/-- Outcome of one document-translation run. -/
structure RunResult where
  finalDoc : List String
  processed : Nat
  failed : Nat
  totalCount : Nat
  trace : List (Nat × Nat × String)
  saved : Bool

/-- `translate_word_document` (utils.py lines 583-846) over the paragraphs
of the document in traversal order.  `atts b a` is the outcome of attempt
`a` (0 = pool call, 1 = in-place retry) of batch `b`'s call to
`_translate_batch_task`; `order` is the order in which `as_completed`
yields the batches, a permutation of the batch indices.  `saved` records
that control reached the unconditional `doc.save` call. -/
def runTranslate (g : Glossary) (lang : String)
    (atts : Nat → Nat → Except String (List String))
    (order : List Nat) (ps : List String) : RunResult :=
  let tasks := collectTasks ps
  let totalCount := tasks.length
  let glossApps := docGlossApps g lang ps
  let apiTasks := docApiTasks g lang ps
  let processed0 := glossApps.length
  let batches := docBatches g lang ps
  let B := batches.length
  let results := (order.map (perBatchResults batches atts)).flatten
  let resMap := fun k => assocFind results k
  let ap := applyPhase resMap apiTasks
  let finalDoc := writeDoc ps (glossApps ++ ap.1)
  let processed := processed0 + ap.2.1
  let failed := ap.2.2
  let midTrace :=
    if apiTasks.isEmpty then []
    else
      (processed0, totalCount, concurrentMsg apiTasks.length B) ::
        (batchTrace processed0 totalCount B (perBatchResults batches atts) order [] 0 ++
          [(processed0, totalCount, applyingMsg)])
  let trace :=
    ((0, 0, loadingMsg) :: (0, 0, analyzingMsg) ::
        (0, totalCount, beginMsg totalCount) ::
        (midTrace ++ [(totalCount, totalCount, savingMsg)])) ++
      [(totalCount, totalCount, doneMsg processed failed)]
  ⟨finalDoc, processed, failed, totalCount, trace, true⟩

theorem collectTasksAux_mem :
    ∀ (ps : List String) (r n : Nat) (tk : BTask), tk ∈ collectTasksAux ps r n →
      ∃ j, j < ps.length ∧ tk.ref = r + j ∧ tk.idx < n + ps.length ∧
        candText (ps.getD j "") = some tk.text := by
  intro ps
  induction ps with
  | nil => intro r n tk h; exact absurd h (by simp [collectTasksAux])
  | cons p rest ih =>
    intro r n tk h
    unfold collectTasksAux at h
    rcases hc : candText p with _ | t
    · rw [hc] at h
      obtain ⟨j, hj, hr, hn, hcand⟩ := ih (r + 1) n tk h
      exact ⟨j + 1, by simpa using hj, by omega, by simp; omega, by simpa using hcand⟩
    · rw [hc] at h
      rcases List.mem_cons.1 h with h1 | h1
      · subst h1
        exact ⟨0, by simp, by simp, by simp, by simpa using hc⟩
      · obtain ⟨j, hj, hr, hn, hcand⟩ := ih (r + 1) (n + 1) tk h1
        exact ⟨j + 1, by simpa using hj, by omega, by simp; omega, by simpa using hcand⟩

theorem collectTasksAux_idx_ge :
    ∀ (ps : List String) (r n : Nat) (tk : BTask), tk ∈ collectTasksAux ps r n →
      n ≤ tk.idx := by
  intro ps
  induction ps with
  | nil => intro r n tk h; exact absurd h (by simp [collectTasksAux])
  | cons p rest ih =>
    intro r n tk h
    unfold collectTasksAux at h
    rcases hc : candText p with _ | t
    · rw [hc] at h
      exact ih (r + 1) n tk h
    · rw [hc] at h
      rcases List.mem_cons.1 h with h1 | h1
      · subst h1; exact Nat.le_refl n
      · exact Nat.le_of_lt (Nat.lt_of_lt_of_le (Nat.lt_succ_self n)
          (ih (r + 1) (n + 1) tk h1))

theorem collectTasksAux_ref_ge :
    ∀ (ps : List String) (r n : Nat) (tk : BTask), tk ∈ collectTasksAux ps r n →
      r ≤ tk.ref := by
  intro ps
  induction ps with
  | nil => intro r n tk h; exact absurd h (by simp [collectTasksAux])
  | cons p rest ih =>
    intro r n tk h
    unfold collectTasksAux at h
    rcases hc : candText p with _ | t
    · rw [hc] at h
      exact Nat.le_of_lt (Nat.lt_of_lt_of_le (Nat.lt_succ_self r) (ih (r + 1) n tk h))
    · rw [hc] at h
      rcases List.mem_cons.1 h with h1 | h1
      · subst h1; exact Nat.le_refl r
      · exact Nat.le_of_lt (Nat.lt_of_lt_of_le (Nat.lt_succ_self r)
          (ih (r + 1) (n + 1) tk h1))

theorem collectTasksAux_idx_pairwise :
    ∀ (ps : List String) (r n : Nat),
      (collectTasksAux ps r n).Pairwise (fun a b => a.idx < b.idx) := by
  intro ps
  induction ps with
  | nil => intro r n; exact List.Pairwise.nil
  | cons p rest ih =>
    intro r n
    unfold collectTasksAux
    rcases hc : candText p with _ | t
    · exact ih (r + 1) n
    · exact List.Pairwise.cons
        (fun b hb => Nat.lt_of_lt_of_le (Nat.lt_succ_self n)
          (collectTasksAux_idx_ge rest (r + 1) (n + 1) b hb))
        (ih (r + 1) (n + 1))

theorem collectTasksAux_ref_pairwise :
    ∀ (ps : List String) (r n : Nat),
      (collectTasksAux ps r n).Pairwise (fun a b => a.ref < b.ref) := by
  intro ps
  induction ps with
  | nil => intro r n; exact List.Pairwise.nil
  | cons p rest ih =>
    intro r n
    unfold collectTasksAux
    rcases hc : candText p with _ | t
    · exact ih (r + 1) n
    · exact List.Pairwise.cons
        (fun b hb => Nat.lt_of_lt_of_le (Nat.lt_succ_self r)
          (collectTasksAux_ref_ge rest (r + 1) (n + 1) b hb))
        (ih (r + 1) (n + 1))

theorem collectTasks_idx_pairwise (ps : List String) :
    (collectTasks ps).Pairwise (fun a b => a.idx < b.idx) :=
  collectTasksAux_idx_pairwise ps 0 0

theorem collectTasks_ref_pairwise (ps : List String) :
    (collectTasks ps).Pairwise (fun a b => a.ref < b.ref) :=
  collectTasksAux_ref_pairwise ps 0 0

theorem docApiTasks_idx_pairwise (g : Glossary) (lang : String) (ps : List String) :
    (docApiTasks g lang ps).Pairwise (fun a b => a.idx < b.idx) :=
  (collectTasks_idx_pairwise ps).sublist (List.filter_sublist _)

theorem docApiTasks_ref_pairwise (g : Glossary) (lang : String) (ps : List String) :
    (docApiTasks g lang ps).Pairwise (fun a b => a.ref < b.ref) :=
  (collectTasks_ref_pairwise ps).sublist (List.filter_sublist _)

theorem chunksOfFuel_flatten (n : Nat) (hn : 0 < n) :
    ∀ (fuel : Nat) (l : List α), l.length ≤ fuel →
      (chunksOfFuel n fuel l).flatten = l := by
  intro fuel
  induction fuel with
  | zero =>
    intro l hl
    rw [List.length_eq_zero.1 (Nat.le_zero.1 hl)]
    rfl
  | succ m ih =>
    intro l hl
    cases l with
    | nil => rfl
    | cons x xs =>
      show (((x :: xs).take n) :: chunksOfFuel n m ((x :: xs).drop n)).flatten = x :: xs
      rw [List.flatten_cons, ih ((x :: xs).drop n) (by
        rw [List.length_drop]
        simp only [List.length_cons] at hl ⊢
        omega)]
      exact List.take_append_drop n (x :: xs)

theorem chunksOf_flatten (n : Nat) (hn : 0 < n) (l : List α) :
    (chunksOf n l).flatten = l :=
  chunksOfFuel_flatten n hn l.length l (Nat.le_refl _)

theorem assocFind_append_some {α : Type} :
    ∀ (l1 l2 : List (Nat × α)) (k : Nat) (v : α), assocFind l1 k = some v →
      assocFind (l1 ++ l2) k = some v := by
  intro l1
  induction l1 with
  | nil => intro l2 k v h; exact absurd h (by simp [assocFind])
  | cons kv rest ih =>
    intro l2 k v h
    rcases kv with ⟨k0, v0⟩
    simp only [assocFind] at h
    rw [List.cons_append]
    simp only [assocFind]
    by_cases hk : k0 = k
    · rw [if_pos hk] at h ⊢; exact h
    · rw [if_neg hk] at h ⊢; exact ih l2 k v h

theorem assocFind_append_none {α : Type} :
    ∀ (l1 l2 : List (Nat × α)) (k : Nat), assocFind l1 k = none →
      assocFind (l1 ++ l2) k = assocFind l2 k := by
  intro l1
  induction l1 with
  | nil => intro l2 k _; rfl
  | cons kv rest ih =>
    intro l2 k h
    rcases kv with ⟨k0, v0⟩
    simp only [assocFind] at h
    rw [List.cons_append]
    simp only [assocFind]
    by_cases hk : k0 = k
    · rw [if_pos hk] at h; exact absurd h (by simp)
    · rw [if_neg hk] at h ⊢; exact ih l2 k h

theorem assocFind_eq_none_of_no_key {α : Type} :
    ∀ (l : List (Nat × α)) (k : Nat), (∀ kv ∈ l, kv.1 ≠ k) →
      assocFind l k = none := by
  intro l
  induction l with
  | nil => intro k _; rfl
  | cons kv rest ih =>
    intro k h
    rcases kv with ⟨k0, v0⟩
    simp only [assocFind]
    rw [if_neg (h (k0, v0) (List.mem_cons_self _ _))]
    exact ih k (fun p hp => h p (List.mem_cons_of_mem _ hp))

theorem assocFind_isSome_of_mem_keys {α : Type} :
    ∀ (l : List (Nat × α)) (k : Nat), k ∈ l.map Prod.fst →
      (assocFind l k).isSome = true := by
  intro l
  induction l with
  | nil => intro k h; exact absurd h (by simp)
  | cons kv rest ih =>
    intro k h
    rcases kv with ⟨k0, v0⟩
    simp only [assocFind]
    by_cases hk : k0 = k
    · rw [if_pos hk]; rfl
    · rw [if_neg hk]
      apply ih
      rcases List.mem_map.1 h with ⟨p, hp, hpk⟩
      rcases List.mem_cons.1 hp with h1 | h1
      · exact absurd (by rw [h1] at hpk; exact hpk) hk
      · exact hpk ▸ List.mem_map_of_mem Prod.fst h1

theorem successResults_keys :
    ∀ (tasks : List BTask) (ts : List String),
      (successResults tasks ts).map Prod.fst = tasks.map BTask.idx := by
  intro tasks
  induction tasks with
  | nil => intro ts; rfl
  | cons tk rest ih =>
    intro ts
    cases ts with
    | nil => simp [successResults, ih]
    | cons s ts2 => simp [successResults, ih]

theorem retryOverwrite_keys (e : String) :
    ∀ (tasks : List BTask) (ts : List String),
      (retryOverwrite e tasks ts).map Prod.fst = tasks.map BTask.idx := by
  intro tasks
  induction tasks with
  | nil => intro ts; rfl
  | cons tk rest ih =>
    intro ts
    cases ts with
    | nil => simp [retryOverwrite, ih]
    | cons s ts2 => simp [retryOverwrite, ih]

theorem batchResults_keys (tasks : List BTask)
    (att : Nat → Except String (List String)) :
    (batchResults tasks att).map Prod.fst = tasks.map BTask.idx := by
  unfold batchResults
  rcases h0 : att 0 with e | ts
  · dsimp only
    by_cases hrl : isRateLimitMsg e = true
    · rw [if_pos hrl]
      rcases h1 : att 1 with e2 | rts
      · dsimp only
        simp
      · dsimp only
        exact retryOverwrite_keys e tasks rts
    · rw [if_neg hrl]
      simp
  · dsimp only
    exact successResults_keys tasks ts

theorem assocFind_flatten_unique {α : Type} (perB : Nat → List (Nat × α))
    (hdisj : ∀ b1 b2, b1 ≠ b2 → ∀ k, k ∈ (perB b1).map Prod.fst →
      k ∉ (perB b2).map Prod.fst) :
    ∀ (order : List Nat), order.Nodup → ∀ b ∈ order, ∀ k,
      k ∈ (perB b).map Prod.fst →
      assocFind ((order.map perB).flatten) k = assocFind (perB b) k := by
  intro order
  induction order with
  | nil => intro _ b hb; exact absurd hb (List.not_mem_nil b)
  | cons b0 rest ih =>
    intro hnd b hb k hk
    rw [List.map_cons, List.flatten_cons]
    rcases List.mem_cons.1 hb with rfl | hbr
    · rcases hsome : assocFind (perB b) k with _ | v
      · have h2 := assocFind_isSome_of_mem_keys _ k hk
        rw [hsome] at h2
        exact absurd h2 (by simp)
      · exact assocFind_append_some _ _ k v hsome
    · have hb0 : b ≠ b0 := by
        intro he
        exact (List.nodup_cons.1 hnd).1 (he ▸ hbr)
      have hnone : assocFind (perB b0) k = none := by
        apply assocFind_eq_none_of_no_key
        intro kv hkv hkk
        exact hdisj b b0 hb0 k hk (hkk ▸ List.mem_map_of_mem Prod.fst hkv)
      rw [assocFind_append_none _ _ k hnone]
      exact ih (List.nodup_cons.1 hnd).2 b hbr k hk

theorem assocFind_flatten_none {α : Type} (perB : Nat → List (Nat × α)) :
    ∀ (order : List Nat) (k : Nat), (∀ b ∈ order, k ∉ (perB b).map Prod.fst) →
      assocFind ((order.map perB).flatten) k = none := by
  intro order
  induction order with
  | nil => intro k _; rfl
  | cons b0 rest ih =>
    intro k h
    rw [List.map_cons, List.flatten_cons]
    have hnone : assocFind (perB b0) k = none := by
      apply assocFind_eq_none_of_no_key
      intro kv hkv hkk
      exact h b0 (List.mem_cons_self _ _) (hkk ▸ List.mem_map_of_mem Prod.fst hkv)
    rw [assocFind_append_none _ _ k hnone]
    exact ih k (fun b hb => h b (List.mem_cons_of_mem _ hb))

/-- The accumulated result map is the same function of the task index under
every batch completion order that is a permutation of the batch indices:
each key is written by exactly one batch. -/
theorem assocFind_flatten_perm {α : Type} (perB : Nat → List (Nat × α)) (B : Nat)
    (hdisj : ∀ b1 b2, b1 ≠ b2 → ∀ k, k ∈ (perB b1).map Prod.fst →
      k ∉ (perB b2).map Prod.fst)
    (order : List Nat) (hperm : order.Perm (List.range B)) (k : Nat) :
    assocFind ((order.map perB).flatten) k =
      assocFind (((List.range B).map perB).flatten) k := by
  have hnd : order.Nodup := hperm.nodup_iff.2 (List.nodup_range B)
  by_cases hex : ∃ b ∈ order, k ∈ (perB b).map Prod.fst
  · obtain ⟨b, hb, hk⟩ := hex
    rw [assocFind_flatten_unique perB hdisj order hnd b hb k hk,
      assocFind_flatten_unique perB hdisj (List.range B) (List.nodup_range B) b
        (hperm.mem_iff.1 hb) k hk]
  · push_neg at hex
    rw [assocFind_flatten_none perB order k hex,
      assocFind_flatten_none perB (List.range B) k
        (fun b hb => hex b (hperm.mem_iff.2 hb))]

theorem getD_eq_getElem_of_lt {α : Type} (l : List α) (d : α) (n : Nat)
    (h : n < l.length) : l.getD n d = l[n] := by
  rw [List.getD_eq_getElem?_getD, List.getElem?_eq_getElem h]
  rfl

theorem getD_eq_nil_of_ge {α : Type} (l : List (List α)) (n : Nat)
    (h : l.length ≤ n) : l.getD n [] = [] := by
  rw [List.getD_eq_getElem?_getD, List.getElem?_eq_none h]
  rfl

/-- Any two distinct batches of a run write disjoint key sets into the
result map: task indices are strictly increasing along the candidate list
and the batches partition it. -/
theorem docBatches_keys_disjoint (g : Glossary) (lang : String) (ps : List String)
    (atts : Nat → Nat → Except String (List String)) :
    ∀ b1 b2, b1 ≠ b2 → ∀ k,
      k ∈ (perBatchResults (docBatches g lang ps) atts b1).map Prod.fst →
      k ∉ (perBatchResults (docBatches g lang ps) atts b2).map Prod.fst := by
  intro b1 b2 hne k h1 h2
  rw [perBatchResults, batchResults_keys] at h1 h2
  by_cases hb1 : b1 < (docBatches g lang ps).length
  · by_cases hb2 : b2 < (docBatches g lang ps).length
    · have hpw : ((docBatches g lang ps).flatten).Pairwise
          (fun (a b : BTask) => a.idx < b.idx) := by
        rw [docBatches, chunksOf_flatten 50 (by omega)]
        exact docApiTasks_idx_pairwise g lang ps
      have hbetween := (List.pairwise_flatten.1 hpw).2
      rcases List.mem_map.1 h1 with ⟨t1, ht1, ht1k⟩
      rcases List.mem_map.1 h2 with ⟨t2, ht2, ht2k⟩
      rw [getD_eq_getElem_of_lt _ _ _ hb1] at ht1
      rw [getD_eq_getElem_of_lt _ _ _ hb2] at ht2
      rcases Nat.lt_or_ge b1 b2 with hlt | hge
      · have := (List.pairwise_iff_getElem.1 hbetween) b1 b2 hb1 hb2 hlt t1 ht1 t2 ht2
        omega
      · have hlt2 : b2 < b1 := by omega
        have := (List.pairwise_iff_getElem.1 hbetween) b2 b1 hb2 hb1 hlt2 t2 ht2 t1 ht1
        omega
    · rw [getD_eq_nil_of_ge _ _ (Nat.le_of_not_lt hb2)] at h2
      simp at h2
  · rw [getD_eq_nil_of_ge _ _ (Nat.le_of_not_lt hb1)] at h1
    simp at h1

theorem applyPhase_congr (m1 m2 : Nat → Option (Except String String)) :
    ∀ tasks : List BTask, (∀ tk ∈ tasks, m1 tk.idx = m2 tk.idx) →
      applyPhase m1 tasks = applyPhase m2 tasks := by
  intro tasks
  induction tasks with
  | nil => intro _; rfl
  | cons tk rest ih =>
    intro h
    show (let r := applyPhase m1 rest;
      match appliedText (m1 tk.idx) with
      | some s => ((tk.ref, s) :: r.1, r.2.1 + 1, r.2.2)
      | none => (r.1, r.2.1, r.2.2 + 1)) = _
    rw [ih (fun u hu => h u (List.mem_cons_of_mem _ hu)),
      h tk (List.mem_cons_self _ _)]
    rfl

theorem applyPhase_failed (m : Nat → Option (Except String String)) :
    ∀ tasks : List BTask, (applyPhase m tasks).2.2 =
      tasks.countP (fun tk => (appliedText (m tk.idx)).isNone) := by
  intro tasks
  induction tasks with
  | nil => rfl
  | cons tk rest ih =>
    show (let r := applyPhase m rest;
      match appliedText (m tk.idx) with
      | some s => ((tk.ref, s) :: r.1, r.2.1 + 1, r.2.2)
      | none => (r.1, r.2.1, r.2.2 + 1)).2.2 = _
    rw [List.countP_cons]
    rcases h : appliedText (m tk.idx) with _ | s
    · dsimp only
      rw [ih]
      simp [h]
    · dsimp only
      rw [ih]
      simp [h]

theorem applyPhase_apps_keys (m : Nat → Option (Except String String)) :
    ∀ tasks : List BTask, ∀ kv ∈ (applyPhase m tasks).1,
      ∃ tk ∈ tasks, kv.1 = tk.ref ∧ appliedText (m tk.idx) = some kv.2 := by
  intro tasks
  induction tasks with
  | nil => intro kv h; exact absurd h (by simp [applyPhase])
  | cons tk rest ih =>
    intro kv h
    rw [show applyPhase m (tk :: rest) =
      (let r := applyPhase m rest;
        match appliedText (m tk.idx) with
        | some s => ((tk.ref, s) :: r.1, r.2.1 + 1, r.2.2)
        | none => (r.1, r.2.1, r.2.2 + 1)) from rfl] at h
    rcases ha : appliedText (m tk.idx) with _ | s
    · rw [ha] at h
      dsimp only at h
      obtain ⟨u, hu, hk, hap⟩ := ih kv h
      exact ⟨u, List.mem_cons_of_mem _ hu, hk, hap⟩
    · rw [ha] at h
      dsimp only at h
      rcases List.mem_cons.1 h with h1 | h1
      · refine ⟨tk, List.mem_cons_self _ _, by rw [h1], ?_⟩
        rw [ha, h1]
      · obtain ⟨u, hu, hk, hap⟩ := ih kv h1
        exact ⟨u, List.mem_cons_of_mem _ hu, hk, hap⟩

theorem pairwise_ref_distinct (tasks : List BTask)
    (hpw : tasks.Pairwise (fun a b => a.ref < b.ref)) :
    ∀ u ∈ tasks, ∀ v ∈ tasks, u.ref = v.ref → u = v := by
  intro u hu v hv heq
  rcases List.mem_iff_getElem.1 hu with ⟨i, hi, hgi⟩
  rcases List.mem_iff_getElem.1 hv with ⟨j, hj, hgj⟩
  rcases Nat.lt_trichotomy i j with h | h | h
  · have := List.pairwise_iff_getElem.1 hpw i j hi hj h
    rw [hgi, hgj] at this
    omega
  · subst h
    exact hgi.symm.trans hgj
  · have := List.pairwise_iff_getElem.1 hpw j i hj hi h
    rw [hgi, hgj] at this
    omega

theorem applyPhase_apps_find (m : Nat → Option (Except String String)) :
    ∀ tasks : List BTask, tasks.Pairwise (fun a b => a.ref < b.ref) →
      ∀ tk ∈ tasks, ∀ s, appliedText (m tk.idx) = some s →
        assocFind (applyPhase m tasks).1 tk.ref = some s := by
  intro tasks
  induction tasks with
  | nil => intro _ tk htk; exact absurd htk (List.not_mem_nil tk)
  | cons u0 rest ih =>
    intro hpw tk htk s hs
    rw [show applyPhase m (u0 :: rest) =
      (let r := applyPhase m rest;
        match appliedText (m u0.idx) with
        | some w => ((u0.ref, w) :: r.1, r.2.1 + 1, r.2.2)
        | none => (r.1, r.2.1, r.2.2 + 1)) from rfl]
    rcases List.mem_cons.1 htk with rfl | hr
    · rw [hs]
      dsimp only
      simp [assocFind]
    · have hne : u0.ref ≠ tk.ref :=
        Nat.ne_of_lt ((List.pairwise_cons.1 hpw).1 tk hr)
      rcases ha : appliedText (m u0.idx) with _ | w
      · dsimp only
        exact ih (List.pairwise_cons.1 hpw).2 tk hr s hs
      · dsimp only
        simp only [assocFind, if_neg hne]
        exact ih (List.pairwise_cons.1 hpw).2 tk hr s hs

theorem applyPhase_apps_find_none (m : Nat → Option (Except String String)) :
    ∀ tasks : List BTask, tasks.Pairwise (fun a b => a.ref < b.ref) →
      ∀ tk ∈ tasks, appliedText (m tk.idx) = none →
        assocFind (applyPhase m tasks).1 tk.ref = none := by
  intro tasks hpw tk htk hs
  apply assocFind_eq_none_of_no_key
  intro kv hkv
  obtain ⟨u, hu, hk, happ⟩ := applyPhase_apps_keys m tasks kv hkv
  rw [hk]
  intro heq
  have hueq : u = tk := pairwise_ref_distinct tasks hpw u hu tk htk heq
  rw [hueq, hs] at happ
  exact absurd happ (by simp)

theorem writeDoc_getD (ps : List String) (apps : List (Nat × String)) (i : Nat)
    (h : i < ps.length) :
    (writeDoc ps apps).getD i "" = (assocFind apps i).getD (ps.getD i "") := by
  unfold writeDoc
  rw [List.getD_eq_getElem?_getD, List.getElem?_map, List.getElem?_range h]
  rfl

theorem successResults_map_exact (f : String → String) :
    ∀ tasks : List BTask,
      successResults tasks ((tasks.map BTask.text).map f) =
        tasks.map (fun u => (u.idx, Except.ok (f u.text))) := by
  intro tasks
  induction tasks with
  | nil => rfl
  | cons tk rest ih =>
    simp only [List.map_cons, successResults, List.map_map] at ih ⊢
    rw [ih]

theorem assocFind_map_pairs (val : BTask → Except String String) :
    ∀ tasks : List BTask, tasks.Pairwise (fun a b => a.idx < b.idx) →
      ∀ tk ∈ tasks,
        assocFind (tasks.map (fun u => (u.idx, val u))) tk.idx = some (val tk) := by
  intro tasks
  induction tasks with
  | nil => intro _ tk htk; exact absurd htk (List.not_mem_nil tk)
  | cons u0 rest ih =>
    intro hpw tk htk
    rw [List.map_cons]
    simp only [assocFind]
    rcases List.mem_cons.1 htk with rfl | hr
    · rw [if_pos rfl]
    · rw [if_neg (Nat.ne_of_lt ((List.pairwise_cons.1 hpw).1 tk hr))]
      exact ih (List.pairwise_cons.1 hpw).2 tk hr

theorem assocFind_successResults :
    ∀ (tasks : List BTask), tasks.Pairwise (fun a b => a.idx < b.idx) →
      ∀ (ts : List String) (j : Nat), j < tasks.length →
        assocFind (successResults tasks ts) (tasks.getD j default).idx =
          some (if j < ts.length then Except.ok (ts.getD j "")
            else Except.error mismatchMsg) := by
  intro tasks
  induction tasks with
  | nil => intro _ ts j hj; exact absurd hj (by simp)
  | cons u0 rest ih =>
    intro hpw ts j hj
    have hne : ∀ u ∈ rest, u0.idx ≠ u.idx :=
      fun u hu => Nat.ne_of_lt ((List.pairwise_cons.1 hpw).1 u hu)
    cases ts with
    | cons s ts2 =>
      cases j with
      | zero => simp [successResults, assocFind]
      | succ j2 =>
        have hj2 : j2 < rest.length := by simpa using hj
        show assocFind ((u0.idx, Except.ok s) :: successResults rest ts2)
          (rest.getD j2 default).idx = _
        simp only [assocFind]
        rw [if_neg (hne _ (by
          rw [getD_eq_getElem_of_lt _ _ _ hj2]
          exact List.getElem_mem hj2))]
        rw [ih (List.pairwise_cons.1 hpw).2 ts2 j2 hj2]
        simp [Nat.succ_lt_succ_iff]
    | nil =>
      cases j with
      | zero => simp [successResults, assocFind]
      | succ j2 =>
        have hj2 : j2 < rest.length := by simpa using hj
        show assocFind ((u0.idx, Except.error mismatchMsg) :: successResults rest [])
          (rest.getD j2 default).idx = _
        simp only [assocFind]
        rw [if_neg (hne _ (by
          rw [getD_eq_getElem_of_lt _ _ _ hj2]
          exact List.getElem_mem hj2))]
        rw [ih (List.pairwise_cons.1 hpw).2 [] j2 hj2]
        simp

/-- The run's result map (`translation_results`), as a function of the
global task index, for completion order `order`. -/
def docResMap (g : Glossary) (lang : String)
    (atts : Nat → Nat → Except String (List String)) (order : List Nat)
    (ps : List String) (k : Nat) : Option (Except String String) :=
  assocFind ((order.map (perBatchResults (docBatches g lang ps) atts)).flatten) k

theorem runTranslate_finalDoc_eq (g : Glossary) (lang : String)
    (atts : Nat → Nat → Except String (List String)) (order : List Nat)
    (ps : List String) :
    (runTranslate g lang atts order ps).finalDoc =
      writeDoc ps (docGlossApps g lang ps ++
        (applyPhase (docResMap g lang atts order ps) (docApiTasks g lang ps)).1) := rfl

theorem runTranslate_failed_eq (g : Glossary) (lang : String)
    (atts : Nat → Nat → Except String (List String)) (order : List Nat)
    (ps : List String) :
    (runTranslate g lang atts order ps).failed =
      (applyPhase (docResMap g lang atts order ps) (docApiTasks g lang ps)).2.2 := rfl

theorem runTranslate_processed_eq (g : Glossary) (lang : String)
    (atts : Nat → Nat → Except String (List String)) (order : List Nat)
    (ps : List String) :
    (runTranslate g lang atts order ps).processed =
      (docGlossApps g lang ps).length +
        (applyPhase (docResMap g lang atts order ps) (docApiTasks g lang ps)).2.1 := rfl

theorem runTranslate_totalCount_eq (g : Glossary) (lang : String)
    (atts : Nat → Nat → Except String (List String)) (order : List Nat)
    (ps : List String) :
    (runTranslate g lang atts order ps).totalCount = (collectTasks ps).length := rfl

theorem docResMap_eq_batch (g : Glossary) (lang : String)
    (atts : Nat → Nat → Except String (List String)) (ps : List String)
    (order : List Nat)
    (hperm : order.Perm (List.range (docBatches g lang ps).length))
    (b : Nat) (hb : b < (docBatches g lang ps).length) (tk : BTask)
    (htk : tk ∈ (docBatches g lang ps).getD b []) :
    docResMap g lang atts order ps tk.idx =
      assocFind (perBatchResults (docBatches g lang ps) atts b) tk.idx := by
  apply assocFind_flatten_unique _ (docBatches_keys_disjoint g lang ps atts) order
    (hperm.nodup_iff.2 (List.nodup_range _)) b
    (hperm.mem_iff.2 (List.mem_range.2 hb)) tk.idx
  rw [perBatchResults, batchResults_keys]
  exact List.mem_map_of_mem BTask.idx htk

theorem apiTask_in_batch (g : Glossary) (lang : String) (ps : List String)
    (tk : BTask) (htk : tk ∈ docApiTasks g lang ps) :
    ∃ b, b < (docBatches g lang ps).length ∧
      tk ∈ (docBatches g lang ps).getD b [] := by
  have h2 : tk ∈ (docBatches g lang ps).flatten := by
    rw [docBatches, chunksOf_flatten 50 (by omega)]
    exact htk
  rcases List.mem_flatten.1 h2 with ⟨l, hl, htl⟩
  rcases List.mem_iff_getElem.1 hl with ⟨b, hb, hgb⟩
  refine ⟨b, hb, ?_⟩
  rw [getD_eq_getElem_of_lt _ _ _ hb, hgb]
  exact htl

theorem batch_task_in_api (g : Glossary) (lang : String) (ps : List String)
    (b : Nat) (hb : b < (docBatches g lang ps).length) (tk : BTask)
    (htk : tk ∈ (docBatches g lang ps).getD b []) :
    tk ∈ docApiTasks g lang ps := by
  have h2 : tk ∈ (docBatches g lang ps).flatten := by
    apply List.mem_flatten.2
    refine ⟨(docBatches g lang ps).getD b [], ?_, htk⟩
    rw [getD_eq_getElem_of_lt _ _ _ hb]
    exact List.getElem_mem hb
  rw [docBatches, chunksOf_flatten 50 (by omega)] at h2
  exact h2

theorem batch_idx_pairwise (g : Glossary) (lang : String) (ps : List String)
    (b : Nat) :
    ((docBatches g lang ps).getD b []).Pairwise (fun a c => a.idx < c.idx) := by
  by_cases hb : b < (docBatches g lang ps).length
  · have hpw : ((docBatches g lang ps).flatten).Pairwise
        (fun (a c : BTask) => a.idx < c.idx) := by
      rw [docBatches, chunksOf_flatten 50 (by omega)]
      exact docApiTasks_idx_pairwise g lang ps
    have h2 := (List.pairwise_flatten.1 hpw).1
    rw [getD_eq_getElem_of_lt _ _ _ hb]
    exact h2 _ (List.getElem_mem hb)
  · rw [getD_eq_nil_of_ge _ _ (Nat.le_of_not_lt hb)]
    exact List.Pairwise.nil

theorem docGlossApps_find_none (g : Glossary) (lang : String) (ps : List String)
    (tk : BTask) (htk : tk ∈ docApiTasks g lang ps) :
    assocFind (docGlossApps g lang ps) tk.ref = none := by
  apply assocFind_eq_none_of_no_key
  intro kv hkv
  rcases List.mem_filterMap.1 hkv with ⟨u, hu, hmap⟩
  rcases hgl : glossHit (docIsEng lang) g u.text with _ | v
  · rw [hgl] at hmap
    exact absurd hmap (by simp)
  · rw [hgl] at hmap
    simp only [Option.map_some'] at hmap
    intro heq
    injection hmap with hmap2
    rw [← hmap2] at heq
    have hu2 : u = tk := pairwise_ref_distinct _ (collectTasks_ref_pairwise ps) u hu tk
      (List.mem_of_mem_filter htk) heq
    have hnone := (List.mem_filter.1 htk).2
    rw [← hu2, hgl] at hnone
    exact absurd hnone (by simp)

theorem task_ref_lt_length (ps : List String) (tk : BTask)
    (htk : tk ∈ collectTasks ps) : tk.ref < ps.length := by
  obtain ⟨j, hj, hr, _, _⟩ := collectTasksAux_mem ps 0 0 tk htk
  omega

theorem runTranslate_doc_applied (g : Glossary) (lang : String)
    (atts : Nat → Nat → Except String (List String)) (order : List Nat)
    (ps : List String) (tk : BTask) (htk : tk ∈ docApiTasks g lang ps)
    (s : String)
    (happ : appliedText (docResMap g lang atts order ps tk.idx) = some s) :
    (runTranslate g lang atts order ps).finalDoc.getD tk.ref "" = s := by
  rw [runTranslate_finalDoc_eq,
    writeDoc_getD ps _ tk.ref (task_ref_lt_length ps tk (List.mem_of_mem_filter htk)),
    assocFind_append_none _ _ _ (docGlossApps_find_none g lang ps tk htk),
    applyPhase_apps_find _ _ (docApiTasks_ref_pairwise g lang ps) tk htk s happ]
  rfl

theorem runTranslate_doc_kept (g : Glossary) (lang : String)
    (atts : Nat → Nat → Except String (List String)) (order : List Nat)
    (ps : List String) (tk : BTask) (htk : tk ∈ docApiTasks g lang ps)
    (happ : appliedText (docResMap g lang atts order ps tk.idx) = none) :
    (runTranslate g lang atts order ps).finalDoc.getD tk.ref "" =
      ps.getD tk.ref "" := by
  rw [runTranslate_finalDoc_eq,
    writeDoc_getD ps _ tk.ref (task_ref_lt_length ps tk (List.mem_of_mem_filter htk)),
    assocFind_append_none _ _ _ (docGlossApps_find_none g lang ps tk htk),
    applyPhase_apps_find_none _ _ (docApiTasks_ref_pairwise g lang ps) tk htk happ]
  rfl

theorem docResMap_perm (g : Glossary) (lang : String)
    (atts : Nat → Nat → Except String (List String)) (ps : List String)
    (order : List Nat)
    (hperm : order.Perm (List.range (docBatches g lang ps).length)) (k : Nat) :
    docResMap g lang atts order ps k =
      docResMap g lang atts (List.range (docBatches g lang ps).length) ps k :=
  assocFind_flatten_perm _ _ (docBatches_keys_disjoint g lang ps atts) order hperm k

/-- A mock batch translator: every batch call (first attempt or retry)
returns the pointwise translation `f` of the batch's texts. -/
def mockAtts (batches : List (List BTask)) (f : String → String) :
    Nat → Nat → Except String (List String) :=
  fun b _ => .ok (((batches.getD b []).map BTask.text).map f)

/-- C1: the fold of batch results is keyed by each unit's global task
index, and the application loop walks the original candidate order, so the
final document, the processed count and the failed count are identical
under every permutation of the batch completion order; and with a (mock)
batch translator that translates each source text by a pure function `f`,
the text finally applied at an api-candidate unit is exactly the
translation of that unit's own source text. -/
theorem final_text_independent_of_completion_order (g : Glossary)
    (lang : String) (ps : List String) :
    (∀ (atts : Nat → Nat → Except String (List String)) (order : List Nat),
      order.Perm (List.range (docBatches g lang ps).length) →
      (runTranslate g lang atts order ps).finalDoc =
        (runTranslate g lang atts
          (List.range (docBatches g lang ps).length) ps).finalDoc ∧
      (runTranslate g lang atts order ps).processed =
        (runTranslate g lang atts
          (List.range (docBatches g lang ps).length) ps).processed ∧
      (runTranslate g lang atts order ps).failed =
        (runTranslate g lang atts
          (List.range (docBatches g lang ps).length) ps).failed) ∧
    (∀ (f : String → String) (order : List Nat),
      order.Perm (List.range (docBatches g lang ps).length) →
      ∀ tk ∈ docApiTasks g lang ps, f tk.text ≠ "" →
      (runTranslate g lang (mockAtts (docBatches g lang ps) f)
          order ps).finalDoc.getD tk.ref "" = f tk.text) := by
  constructor
  · intro atts order hperm
    have hap : applyPhase (docResMap g lang atts order ps) (docApiTasks g lang ps) =
        applyPhase (docResMap g lang atts
          (List.range (docBatches g lang ps).length) ps) (docApiTasks g lang ps) :=
      applyPhase_congr _ _ _
        (fun tk _ => docResMap_perm g lang atts ps order hperm tk.idx)
    refine ⟨?_, ?_, ?_⟩
    · rw [runTranslate_finalDoc_eq, runTranslate_finalDoc_eq, hap]
    · rw [runTranslate_processed_eq, runTranslate_processed_eq, hap]
    · rw [runTranslate_failed_eq, runTranslate_failed_eq, hap]
  · intro f order hperm tk htk hne
    obtain ⟨b, hb, htb⟩ := apiTask_in_batch g lang ps tk htk
    have hmapv : docResMap g lang (mockAtts (docBatches g lang ps) f) order ps tk.idx =
        some (Except.ok (f tk.text)) := by
      rw [docResMap_eq_batch g lang _ ps order hperm b hb tk htb]
      rw [perBatchResults]
      show assocFind (batchResults ((docBatches g lang ps).getD b [])
        (mockAtts (docBatches g lang ps) f b)) tk.idx = _
      rw [show batchResults ((docBatches g lang ps).getD b [])
          (mockAtts (docBatches g lang ps) f b) =
        successResults ((docBatches g lang ps).getD b [])
          ((((docBatches g lang ps).getD b []).map BTask.text).map f) from rfl]
      rw [successResults_map_exact]
      exact assocFind_map_pairs _ _ (batch_idx_pairwise g lang ps b) tk htb
    apply runTranslate_doc_applied g lang _ order ps tk htk
    rw [hmapv]
    show (if (f tk.text).data.isEmpty = true then none else some (f tk.text)) = _
    rw [if_neg ?_]
    intro hdata
    apply hne
    exact congrArg String.mk (List.isEmpty_iff.1 hdata)

/-- Witness for C1: a one-paragraph document, one batch, completion order
`[0]`; the applied text at the unit's paragraph is the mock translation of
its own source text. -/
theorem final_text_independent_of_completion_order_witness :
    (runTranslate [] "法语"
        (mockAtts (docBatches [] "法语" ["Hello world"]) (fun _ => "X"))
        [0] ["Hello world"]).finalDoc.getD 0 "" = "X" :=
  (final_text_independent_of_completion_order [] "法语" ["Hello world"]).2
    (fun _ => "X") [0] (by decide) ⟨0, "Hello world", 0⟩ (by decide) (by decide)

theorem countP_flatten_single {α : Type} (p : α → Bool) :
    ∀ (L : List (List α)) (k : Nat), k < L.length →
      (∀ x ∈ L.getD k [], p x = true) →
      (∀ b, b < L.length → b ≠ k → ∀ x ∈ L.getD b [], p x = false) →
      (L.flatten).countP p = (L.getD k []).length := by
  intro L
  induction L with
  | nil => intro k hk; intro _ _; exact absurd hk (by simp)
  | cons l0 rest ih =>
    intro k hk hall hnone
    rw [List.flatten_cons, List.countP_append]
    cases k with
    | zero =>
      have h1 : l0.countP p = l0.length := List.countP_eq_length.2 hall
      have h2 : (rest.flatten).countP p = 0 := by
        rw [List.countP_eq_zero]
        intro x hx
        rcases List.mem_flatten.1 hx with ⟨l, hl, hxl⟩
        rcases List.mem_iff_getElem.1 hl with ⟨b, hb, hgb⟩
        have h3 := hnone (b + 1) (by simpa using Nat.succ_lt_succ hb) (by omega) x ?_
        · simp [h3]
        · rw [show (l0 :: rest).getD (b + 1) [] = rest.getD b [] from rfl,
            getD_eq_getElem_of_lt _ _ _ hb, hgb]
          exact hxl
      rw [h1, h2]
      simp
    | succ k2 =>
      have h1 : l0.countP p = 0 := by
        rw [List.countP_eq_zero]
        intro x hx
        have h3 := hnone 0 (by omega) (by omega) x hx
        simp [h3]
      have h2 := ih k2 (by simpa using hk)
        (by
          intro x hx
          exact hall x hx)
        (by
          intro b hb hbne x hx
          exact hnone (b + 1) (by simpa using Nat.succ_lt_succ hb) (by omega) x hx)
      rw [h1, h2]
      rw [List.getD_cons_succ]
      omega

theorem appliedText_ok_ne (s : String) (hs : s ≠ "") :
    appliedText (some (Except.ok s)) = some s := by
  show (if s.data.isEmpty = true then none else some s) = some s
  rw [if_neg]
  intro hdata
  exact hs (congrArg String.mk (List.isEmpty_iff.1 hdata))

theorem docApiTasks_eq_flatten (g : Glossary) (lang : String) (ps : List String) :
    docApiTasks g lang ps = (docBatches g lang ps).flatten := by
  rw [docBatches, chunksOf_flatten 50 (by omega)]

/-- C2: with one batch failing on a non-rate-limit provider error and every
other batch succeeding with a full-length list of non-empty translations,
the run still completes: the failed counter equals the failed batch's size,
every unit of the failed batch keeps its original paragraph text, every
unit of every successful batch receives its own translation, and control
reaches the save of the output document. -/
theorem partial_batch_failure_contained (g : Glossary) (lang : String)
    (ps : List String) (atts : Nat → Nat → Except String (List String))
    (order : List Nat) (k : Nat) (e : String) (ts : Nat → List String)
    (hperm : order.Perm (List.range (docBatches g lang ps).length))
    (hk : k < (docBatches g lang ps).length)
    (hfail : atts k 0 = .error e)
    (hnr : isRateLimitMsg e = false)
    (hsucc : ∀ b, b < (docBatches g lang ps).length → b ≠ k →
      atts b 0 = .ok (ts b) ∧
      (ts b).length = ((docBatches g lang ps).getD b []).length ∧
      ∀ s ∈ ts b, s ≠ "") :
    (runTranslate g lang atts order ps).failed =
      ((docBatches g lang ps).getD k []).length ∧
    (∀ tk ∈ (docBatches g lang ps).getD k [],
      (runTranslate g lang atts order ps).finalDoc.getD tk.ref "" =
        ps.getD tk.ref "") ∧
    (∀ b, b < (docBatches g lang ps).length → b ≠ k →
      ∀ j, j < ((docBatches g lang ps).getD b []).length →
      (runTranslate g lang atts order ps).finalDoc.getD
          (((docBatches g lang ps).getD b []).getD j default).ref "" =
        (ts b).getD j "") ∧
    (runTranslate g lang atts order ps).saved = true := by
  have hkmap : ∀ tk ∈ (docBatches g lang ps).getD k [],
      docResMap g lang atts order ps tk.idx = some (Except.error e) := by
    intro tk htk
    rw [docResMap_eq_batch g lang atts ps order hperm k hk tk htk, perBatchResults]
    rw [show batchResults ((docBatches g lang ps).getD k []) (atts k) =
      ((docBatches g lang ps).getD k []).map
        (fun u => (u.idx, Except.error e)) from by
        unfold batchResults
        rw [hfail]
        dsimp only
        rw [if_neg (by rw [hnr]; exact Bool.false_ne_true)]]
    exact assocFind_map_pairs _ _ (batch_idx_pairwise g lang ps k) tk htk
  have hbmap : ∀ b, b < (docBatches g lang ps).length → b ≠ k →
      ∀ j, j < ((docBatches g lang ps).getD b []).length →
      docResMap g lang atts order ps
          (((docBatches g lang ps).getD b []).getD j default).idx =
        some (Except.ok ((ts b).getD j "")) := by
    intro b hb hbk j hj
    have htk : ((docBatches g lang ps).getD b []).getD j default ∈
        (docBatches g lang ps).getD b [] := by
      rw [getD_eq_getElem_of_lt _ _ _ hj]
      exact List.getElem_mem hj
    rw [docResMap_eq_batch g lang atts ps order hperm b hb _ htk, perBatchResults]
    rw [show batchResults ((docBatches g lang ps).getD b []) (atts b) =
      successResults ((docBatches g lang ps).getD b []) (ts b) from by
        unfold batchResults
        rw [(hsucc b hb hbk).1]]
    rw [assocFind_successResults _ (batch_idx_pairwise g lang ps b) (ts b) j hj]
    rw [if_pos (by rw [(hsucc b hb hbk).2.1]; exact hj)]
  have hts_mem : ∀ b, b < (docBatches g lang ps).length → b ≠ k →
      ∀ j, j < ((docBatches g lang ps).getD b []).length →
      (ts b).getD j "" ≠ "" := by
    intro b hb hbk j hj
    have hjt : j < (ts b).length := by
      rw [(hsucc b hb hbk).2.1]
      exact hj
    apply (hsucc b hb hbk).2.2
    rw [getD_eq_getElem_of_lt _ _ _ hjt]
    exact List.getElem_mem hjt
  refine ⟨?_, ?_, ?_, rfl⟩
  · rw [runTranslate_failed_eq, applyPhase_failed, docApiTasks_eq_flatten]
    apply countP_flatten_single _ _ k hk
    · intro tk htk
      rw [hkmap tk htk]
      rfl
    · intro b hb hbk tk htk
      rcases List.mem_iff_getElem.1 htk with ⟨j, hj, hgj⟩
      have := hbmap b hb hbk j hj
      rw [getD_eq_getElem_of_lt _ _ _ hj, hgj] at this
      rw [this, appliedText_ok_ne _ ?_]
      · rfl
      · have := hts_mem b hb hbk j hj
        exact this
  · intro tk htk
    apply runTranslate_doc_kept g lang atts order ps tk
      (batch_task_in_api g lang ps k hk tk htk)
    rw [hkmap tk htk]
    rfl
  · intro b hb hbk j hj
    have htk : ((docBatches g lang ps).getD b []).getD j default ∈
        (docBatches g lang ps).getD b [] := by
      rw [getD_eq_getElem_of_lt _ _ _ hj]
      exact List.getElem_mem hj
    apply runTranslate_doc_applied g lang atts order ps _
      (batch_task_in_api g lang ps b hb _ htk)
    rw [hbmap b hb hbk j hj]
    exact appliedText_ok_ne _ (hts_mem b hb hbk j hj)

/-- Witness for C2 at a one-batch run whose only batch fails with a plain
provider error: the run finishes with the whole batch failed, the original
text kept, and the document saved. -/
theorem partial_batch_failure_contained_witness :
    (runTranslate [] "法语" (fun _ _ => .error "provider boom") [0]
      ["Hello world"]).failed = 1 ∧
    (runTranslate [] "法语" (fun _ _ => .error "provider boom") [0]
      ["Hello world"]).finalDoc.getD 0 "" = "Hello world" ∧
    (runTranslate [] "法语" (fun _ _ => .error "provider boom") [0]
      ["Hello world"]).saved = true := by
  have h := partial_batch_failure_contained [] "法语" ["Hello world"]
    (fun _ _ => .error "provider boom") [0] 0 "provider boom" (fun _ => [])
    (by decide) (by decide) rfl (by decide)
    (by
      intro b hb hbk
      exfalso
      apply hbk
      have hB : (docBatches [] "法语" ["Hello world"]).length = 1 := by decide
      omega)
  refine ⟨h.1.trans (by decide), ?_, h.2.2.2⟩
  have h2 := h.2.1 ⟨0, "Hello world", 0⟩ (by decide)
  exact h2

/-- C3 (code bug): a genuine DeepL rate-limit failure is re-raised by the
batch client as the fixed message "DeepL API 请求过于频繁。请稍后再试。",
and that message contains none of the substrings "429", "rate limit",
"TooManyRequests" that the retry check of `translate_word_document` looks
for — so a rate-limited batch is never retried, even when the retry would
succeed: with a single batch whose first attempt raises
`TooManyRequestsException` and whose retry would return a good
translation, the run ends with the unit failed and its original text kept.
By contrast, an error whose stringified message does contain "429" does
trigger the single retry, and the retry's translation is applied — the
retry machinery works, and the defect is exactly the rendered message. -/
theorem rate_limit_retry_never_fires :
    isRateLimitMsg (renderDeeplError .tooManyRequests) = false ∧
    (runTranslate [] "英语"
        (fun _ a => if a = 0 then .error (renderDeeplError .tooManyRequests)
          else .ok ["RESCUED"]) [0] ["Hello world"]).failed = 1 ∧
    (runTranslate [] "英语"
        (fun _ a => if a = 0 then .error (renderDeeplError .tooManyRequests)
          else .ok ["RESCUED"]) [0] ["Hello world"]).finalDoc = ["Hello world"] ∧
    isRateLimitMsg (renderDeeplError (.unknown "429")) = true ∧
    (runTranslate [] "英语"
        (fun _ a => if a = 0 then .error (renderDeeplError (.unknown "429"))
          else .ok ["RESCUED"]) [0] ["Hello world"]).failed = 0 ∧
    (runTranslate [] "英语"
        (fun _ a => if a = 0 then .error (renderDeeplError (.unknown "429"))
          else .ok ["RESCUED"]) [0] ["Hello world"]).finalDoc = ["RESCUED"] := by
  exact ⟨by decide, by decide, by decide, by decide, by decide, by decide⟩

theorem candText_none_of_long (p : String) (h : 8000 < (pyStrip p).length) :
    candText p = none := by
  have hdata : 8000 < (pyStrip p).data.length := h
  unfold candText
  dsimp only
  rw [if_neg ?hne, if_neg ?hlen]
  case hne =>
    intro hemp
    rw [List.isEmpty_iff.1 hemp] at hdata
    simp at hdata
  case hlen =>
    intro hle
    have : (pyStrip p).length = (pyStrip p).data.length := rfl
    omega

theorem collectTasksAux_set_noncand :
    ∀ (ps : List String) (i r n : Nat) (s2 : String),
      i < ps.length → candText (ps.getD i "") = none → candText s2 = none →
      collectTasksAux (ps.set i s2) r n = collectTasksAux ps r n := by
  intro ps
  induction ps with
  | nil => intro i r n s2 hi _ _; exact absurd hi (by simp)
  | cons p rest ih =>
    intro i r n s2 hi hcp hc2
    cases i with
    | zero =>
      show collectTasksAux (s2 :: rest) r n = collectTasksAux (p :: rest) r n
      unfold collectTasksAux
      rw [hc2, show candText p = none from by simpa using hcp]
    | succ i2 =>
      show collectTasksAux (p :: rest.set i2 s2) r n = collectTasksAux (p :: rest) r n
      unfold collectTasksAux
      rcases hc : candText p with _ | t
      · exact ih i2 (r + 1) n s2 (by simpa using hi) (by simpa using hcp) hc2
      · rw [ih i2 (r + 1) (n + 1) s2 (by simpa using hi) (by simpa using hcp) hc2]

theorem writeDoc_getElem (ps : List String) (apps : List (Nat × String)) (j : Nat)
    (hj : j < (writeDoc ps apps).length) :
    (writeDoc ps apps)[j] = (assocFind apps j).getD (ps.getD j "") := by
  unfold writeDoc at hj ⊢
  rw [List.getElem_map, List.getElem_range]

theorem writeDoc_set_of_none (ps : List String) (apps : List (Nat × String))
    (i : Nat) (s2 : String) (hi : i < ps.length)
    (hnone : assocFind apps i = none) :
    writeDoc (ps.set i s2) apps = (writeDoc ps apps).set i s2 := by
  have hlen : (writeDoc (ps.set i s2) apps).length =
      ((writeDoc ps apps).set i s2).length := by
    simp [writeDoc]
  apply List.ext_getElem hlen
  intro j h1 h2
  have hj : j < ps.length := by
    simpa [writeDoc] using h1
  rw [writeDoc_getElem _ _ _ h1, List.getElem_set]
  by_cases hij : i = j
  · subst hij
    rw [if_pos rfl, hnone,
      getD_eq_getElem_of_lt _ _ _ (by simpa using hi), List.getElem_set,
      if_pos rfl]
    rfl
  · rw [if_neg hij,
      writeDoc_getElem ps apps j (by simpa [writeDoc] using hj)]
    congr 1
    rw [getD_eq_getElem_of_lt _ _ _ (by simpa using hj),
      getD_eq_getElem_of_lt _ _ _ hj, List.getElem_set, if_neg hij]

/-- C9: a paragraph whose trimmed text is longer than 8000 characters is
excluded before classification: it yields no task (no task references its
paragraph), its text is left untouched in the output document, and it
contributes nothing to the totals — the task list, the total, the
processed and failed counters are unchanged when it is replaced by any
other over-long paragraph, and the output document merely carries the
replacement verbatim. -/
theorem long_paragraph_excluded (g : Glossary) (lang : String)
    (atts : Nat → Nat → Except String (List String)) (order : List Nat)
    (ps : List String) (i : Nat) (hi : i < ps.length)
    (hlong : 8000 < (pyStrip (ps.getD i "")).length) :
    (∀ tk ∈ collectTasks ps, tk.ref ≠ i) ∧
    (runTranslate g lang atts order ps).finalDoc.getD i "" = ps.getD i "" ∧
    (∀ s2, 8000 < (pyStrip s2).length →
      collectTasks (ps.set i s2) = collectTasks ps ∧
      (runTranslate g lang atts order (ps.set i s2)).totalCount =
        (runTranslate g lang atts order ps).totalCount ∧
      (runTranslate g lang atts order (ps.set i s2)).processed =
        (runTranslate g lang atts order ps).processed ∧
      (runTranslate g lang atts order (ps.set i s2)).failed =
        (runTranslate g lang atts order ps).failed ∧
      (runTranslate g lang atts order (ps.set i s2)).finalDoc =
        ((runTranslate g lang atts order ps).finalDoc).set i s2) := by
  have hrefs : ∀ tk ∈ collectTasks ps, tk.ref ≠ i := by
    intro tk htk heq
    obtain ⟨j, hj, hr, _, hcand⟩ := collectTasksAux_mem ps 0 0 tk htk
    have hji : j = i := by omega
    rw [hji, candText_none_of_long _ hlong] at hcand
    exact absurd hcand (by simp)
  have happs_none : assocFind (docGlossApps g lang ps ++
      (applyPhase (docResMap g lang atts order ps) (docApiTasks g lang ps)).1)
        i = none := by
    apply assocFind_eq_none_of_no_key
    intro kv hkv
    rcases List.mem_append.1 hkv with h1 | h1
    · rcases List.mem_filterMap.1 h1 with ⟨u, hu, hmap⟩
      rcases hgl : glossHit (docIsEng lang) g u.text with _ | v
      · rw [hgl] at hmap
        exact absurd hmap (by simp)
      · rw [hgl] at hmap
        simp only [Option.map_some'] at hmap
        injection hmap with hmap2
        rw [← hmap2]
        exact hrefs u hu
    · obtain ⟨u, hu, hk, _⟩ := applyPhase_apps_keys _ _ kv h1
      rw [hk]
      exact hrefs u (List.mem_of_mem_filter hu)
  refine ⟨hrefs, ?_, ?_⟩
  · rw [runTranslate_finalDoc_eq, writeDoc_getD ps _ i hi, happs_none]
    rfl
  · intro s2 hs2
    have hTasks : collectTasks (ps.set i s2) = collectTasks ps :=
      collectTasksAux_set_noncand ps i 0 0 s2 hi
        (candText_none_of_long _ hlong) (candText_none_of_long _ hs2)
    have hga : docGlossApps g lang (ps.set i s2) = docGlossApps g lang ps := by
      unfold docGlossApps
      rw [hTasks]
    have hat : docApiTasks g lang (ps.set i s2) = docApiTasks g lang ps := by
      unfold docApiTasks
      rw [hTasks]
    have hbat : docBatches g lang (ps.set i s2) = docBatches g lang ps := by
      unfold docBatches
      rw [hat]
    have hrm : docResMap g lang atts order (ps.set i s2) =
        docResMap g lang atts order ps := by
      funext k
      unfold docResMap
      rw [hbat]
    refine ⟨hTasks, ?_, ?_, ?_, ?_⟩
    · rw [runTranslate_totalCount_eq, runTranslate_totalCount_eq, hTasks]
    · rw [runTranslate_processed_eq, runTranslate_processed_eq, hga, hat, hrm]
    · rw [runTranslate_failed_eq, runTranslate_failed_eq, hat, hrm]
    · rw [runTranslate_finalDoc_eq, runTranslate_finalDoc_eq, hga, hat, hrm]
      exact writeDoc_set_of_none ps _ i s2 hi happs_none

/-- An over-long paragraph: 8001 identical letters. -/
def longPara : String := String.mk (List.replicate 8001 'a')

theorem dropWhile_ws_replicate_a (n : Nat) :
    (List.replicate n 'a').dropWhile Char.isWhitespace = List.replicate n 'a' := by
  cases n with
  | zero => rfl
  | succ m =>
    rw [List.replicate_succ, List.dropWhile_cons, if_neg (by decide)]

theorem string_mk_length (l : List Char) : (String.mk l).length = l.length := rfl

theorem longPara_strip_len : 8000 < (pyStrip longPara).length := by
  rw [show pyStrip longPara =
      String.mk (stripChars (List.replicate 8001 'a')) from rfl,
    string_mk_length,
    show stripChars (List.replicate 8001 'a') = List.replicate 8001 'a' from by
      unfold stripChars
      rw [dropWhile_ws_replicate_a, List.reverse_replicate,
        dropWhile_ws_replicate_a, List.reverse_replicate],
    List.length_replicate]
  omega

/-- Witness for C9: a two-paragraph document whose second paragraph is
8001 characters long; the output document keeps it verbatim. -/
theorem long_paragraph_excluded_witness :
    (runTranslate [] "英语" (fun _ _ => .ok ["OK2"]) [0]
      ["ok", longPara]).finalDoc.getD 1 "" = ["ok", longPara].getD 1 "" :=
  (long_paragraph_excluded [] "英语" (fun _ _ => .ok ["OK2"]) [0]
    ["ok", longPara] 1 (by decide) longPara_strip_len).2.1

theorem ne_of_data2 (a b : String) (h : a.data[2]? ≠ b.data[2]?) : a ≠ b :=
  fun he => h (by rw [he])

theorem append_data_getElem2 (p x : String) (h : 2 < p.data.length) :
    (p ++ x).data[2]? = p.data[2]? := by
  rw [String.data_append, List.getElem?_append_left h]

theorem doneMsg_data2 (p f : Nat) : (doneMsg p f).data[2]? = some '完' := by
  unfold doneMsg
  rw [append_data_getElem2 _ _ (by decide)]
  decide

theorem loadingMsg_ne_doneMsg (p f : Nat) : loadingMsg ≠ doneMsg p f := by
  apply ne_of_data2
  rw [doneMsg_data2]
  decide

theorem analyzingMsg_ne_doneMsg (p f : Nat) : analyzingMsg ≠ doneMsg p f := by
  apply ne_of_data2
  rw [doneMsg_data2]
  decide

theorem applyingMsg_ne_doneMsg (p f : Nat) : applyingMsg ≠ doneMsg p f := by
  apply ne_of_data2
  rw [doneMsg_data2]
  decide

theorem savingMsg_ne_doneMsg (p f : Nat) : savingMsg ≠ doneMsg p f := by
  apply ne_of_data2
  rw [doneMsg_data2]
  decide

theorem beginMsg_ne_doneMsg (t p f : Nat) : beginMsg t ≠ doneMsg p f := by
  apply ne_of_data2
  rw [doneMsg_data2]
  unfold beginMsg
  rw [append_data_getElem2 _ _ (by decide)]
  decide

theorem concurrentMsg_ne_doneMsg (n B p f : Nat) :
    concurrentMsg n B ≠ doneMsg p f := by
  apply ne_of_data2
  rw [doneMsg_data2]
  unfold concurrentMsg
  rw [append_data_getElem2 _ _ (by decide)]
  decide

theorem progressMsg_ne_doneMsg (cur total k B p f : Nat) :
    progressMsg cur total k B ≠ doneMsg p f := by
  apply ne_of_data2
  rw [doneMsg_data2]
  unfold progressMsg
  rw [append_data_getElem2 _ _ (by decide)]
  decide

theorem batchTrace_msgs (p0 total B : Nat)
    (perB : Nat → List (Nat × Except String String)) :
    ∀ (order : List Nat) (acc : List (Nat × Except String String)) (k : Nat),
      ∀ e ∈ batchTrace p0 total B perB order acc k,
        ∃ c k2, e = (c, total, progressMsg c total k2 B) := by
  intro order
  induction order with
  | nil => intro acc k e he; exact absurd he (by simp [batchTrace])
  | cons b rest ih =>
    intro acc k e he
    unfold batchTrace at he
    rcases List.mem_cons.1 he with h1 | h1
    · exact ⟨_, _, h1⟩
    · exact ih _ _ e h1

theorem runTranslate_trace_eq (g : Glossary) (lang : String)
    (atts : Nat → Nat → Except String (List String)) (order : List Nat)
    (ps : List String) :
    (runTranslate g lang atts order ps).trace =
      ((0, 0, loadingMsg) :: (0, 0, analyzingMsg) ::
        (0, (collectTasks ps).length, beginMsg (collectTasks ps).length) ::
        ((if (docApiTasks g lang ps).isEmpty then []
          else
            ((docGlossApps g lang ps).length, (collectTasks ps).length,
              concurrentMsg (docApiTasks g lang ps).length
                (docBatches g lang ps).length) ::
              (batchTrace (docGlossApps g lang ps).length
                  (collectTasks ps).length (docBatches g lang ps).length
                  (perBatchResults (docBatches g lang ps) atts) order [] 0 ++
                [((docGlossApps g lang ps).length, (collectTasks ps).length,
                  applyingMsg)])) ++
          [((collectTasks ps).length, (collectTasks ps).length, savingMsg)])) ++
      [((collectTasks ps).length, (collectTasks ps).length,
        doneMsg (runTranslate g lang atts order ps).processed
          (runTranslate g lang atts order ps).failed)] := rfl

/-- C7: on every run the trace of progress reports ends with the terminal
report `(total, total, done-message)`, and that exact report occurs exactly
once in the whole trace — every earlier report (loading, analyzing, begin,
concurrent start, per-batch progress, applying, saving) carries a message
that differs from the terminal message. -/
theorem terminal_report_exactly_once (g : Glossary) (lang : String)
    (atts : Nat → Nat → Except String (List String)) (order : List Nat)
    (ps : List String)
    (hperm : order.Perm (List.range (docBatches g lang ps).length)) :
    (runTranslate g lang atts order ps).trace.getLast? =
      some ((runTranslate g lang atts order ps).totalCount,
        (runTranslate g lang atts order ps).totalCount,
        doneMsg (runTranslate g lang atts order ps).processed
          (runTranslate g lang atts order ps).failed) ∧
    (runTranslate g lang atts order ps).trace.countP
        (fun e => decide (e = ((runTranslate g lang atts order ps).totalCount,
          (runTranslate g lang atts order ps).totalCount,
          doneMsg (runTranslate g lang atts order ps).processed
            (runTranslate g lang atts order ps).failed))) = 1 := by
  constructor
  · rw [runTranslate_trace_eq, List.getLast?_concat]
    rfl
  · rw [runTranslate_trace_eq, List.countP_append]
    have hone : List.countP
        (fun e => decide (e = ((runTranslate g lang atts order ps).totalCount,
          (runTranslate g lang atts order ps).totalCount,
          doneMsg (runTranslate g lang atts order ps).processed
            (runTranslate g lang atts order ps).failed)))
        [((collectTasks ps).length, (collectTasks ps).length,
          doneMsg (runTranslate g lang atts order ps).processed
            (runTranslate g lang atts order ps).failed)] = 1 := by
      rw [List.countP_cons]
      simp [runTranslate_totalCount_eq]
    have hzero : List.countP
        (fun e => decide (e = ((runTranslate g lang atts order ps).totalCount,
          (runTranslate g lang atts order ps).totalCount,
          doneMsg (runTranslate g lang atts order ps).processed
            (runTranslate g lang atts order ps).failed)))
        ((0, 0, loadingMsg) :: (0, 0, analyzingMsg) ::
          (0, (collectTasks ps).length, beginMsg (collectTasks ps).length) ::
          ((if (docApiTasks g lang ps).isEmpty then []
            else
              ((docGlossApps g lang ps).length, (collectTasks ps).length,
                concurrentMsg (docApiTasks g lang ps).length
                  (docBatches g lang ps).length) ::
                (batchTrace (docGlossApps g lang ps).length
                    (collectTasks ps).length (docBatches g lang ps).length
                    (perBatchResults (docBatches g lang ps) atts) order [] 0 ++
                  [((docGlossApps g lang ps).length, (collectTasks ps).length,
                    applyingMsg)])) ++
            [((collectTasks ps).length, (collectTasks ps).length,
              savingMsg)])) = 0 := by
      rw [List.countP_eq_zero]
      intro e he hbe
      rw [decide_eq_true_eq] at hbe
      have hmsg : e.2.2 = doneMsg (runTranslate g lang atts order ps).processed
          (runTranslate g lang atts order ps).failed := by
        rw [hbe]
      rcases List.mem_cons.1 he with rfl | he2
      · exact loadingMsg_ne_doneMsg _ _ hmsg
      rcases List.mem_cons.1 he2 with rfl | he3
      · exact analyzingMsg_ne_doneMsg _ _ hmsg
      rcases List.mem_cons.1 he3 with rfl | he4
      · exact beginMsg_ne_doneMsg _ _ _ hmsg
      rcases List.mem_append.1 he4 with he5 | he5
      · by_cases hemp : (docApiTasks g lang ps).isEmpty = true
        · rw [if_pos hemp] at he5
          exact absurd he5 (List.not_mem_nil e)
        · rw [if_neg hemp] at he5
          rcases List.mem_cons.1 he5 with rfl | he6
          · exact concurrentMsg_ne_doneMsg _ _ _ _ hmsg
          rcases List.mem_append.1 he6 with he7 | he7
          · obtain ⟨c, k2, hck⟩ := batchTrace_msgs _ _ _ _ order [] 0 e he7
            rw [hck] at hmsg
            exact progressMsg_ne_doneMsg _ _ _ _ _ _ hmsg
          · rcases List.mem_cons.1 he7 with rfl | he8
            · exact applyingMsg_ne_doneMsg _ _ hmsg
            · exact absurd he8 (List.not_mem_nil e)
      · rcases List.mem_cons.1 he5 with rfl | he6
        · exact savingMsg_ne_doneMsg _ _ hmsg
        · exact absurd he6 (List.not_mem_nil e)
    rw [hone, hzero]

/-- Witness for C7: a successful single-batch run; the trace ends with the
terminal report and contains it exactly once. -/
theorem terminal_report_exactly_once_witness :
    (runTranslate [] "法语" (fun _ _ => .ok ["BONJOUR"]) [0]
        ["Hello world"]).trace.getLast? =
      some ((runTranslate [] "法语" (fun _ _ => .ok ["BONJOUR"]) [0]
          ["Hello world"]).totalCount,
        (runTranslate [] "法语" (fun _ _ => .ok ["BONJOUR"]) [0]
          ["Hello world"]).totalCount,
        doneMsg (runTranslate [] "法语" (fun _ _ => .ok ["BONJOUR"]) [0]
            ["Hello world"]).processed
          (runTranslate [] "法语" (fun _ _ => .ok ["BONJOUR"]) [0]
            ["Hello world"]).failed) :=
  (terminal_report_exactly_once [] "法语" (fun _ _ => .ok ["BONJOUR"]) [0]
    ["Hello world"] (by decide)).1
